import Mathlib

/-!
Shallow embedding of the convex/concave nonlinear-handler subsystem of
`src/src/scip/cons_expr_nlhdlr_convex.c`.

The original expression graph, interval arithmetic results, monotonicity
queries, per-expression-handler curvature callbacks and the quadratic
recognition are external collaborators of that file; their answers are
carried as data on the embedded original-expression nodes (oracle fields),
while every algorithm of the C file itself (curvature check rules, the
construction loop, leaf collection, estimators, the estimate callbacks)
is translated into executable Lean definitions below.
-/

/-- Curvature classification, mirroring SCIP_EXPRCURV. -/
inductive ExprCurv where
  | unknown
  | convex
  | concave
  | linear
deriving DecidableEq, Repr

/-- Monotonicity classification, mirroring SCIP_MONOTONE. -/
inductive ExprMono where
  | unknown
  | inc
  | dec
  | const
deriving DecidableEq, Repr

/-- Extended rational: activity interval bounds may be infinite
(SCIP interval bounds at plus or minus interval infinity). -/
inductive XReal where
  | ninf
  | fin (q : ℚ)
  | pinf
deriving DecidableEq, Repr

/-- Strict order test on extended rationals (models C comparison of
SCIP_Real bounds where infinities are huge sentinel values). -/
def XReal.ltB : XReal → XReal → Bool
  | .ninf, .ninf => false
  | .ninf, .fin _ => true
  | .ninf, .pinf => true
  | .fin _, .ninf => false
  | .fin a, .fin b => decide (a < b)
  | .fin _, .pinf => true
  | .pinf, _ => false

/-- Non-strict order test on extended rationals. -/
def XReal.leB : XReal → XReal → Bool
  | .ninf, _ => true
  | .fin _, .ninf => false
  | .fin a, .fin b => decide (a ≤ b)
  | .fin _, .pinf => true
  | .pinf, .pinf => true
  | .pinf, _ => false

/-- Activity interval of an original expression (SCIP_INTERVAL). -/
structure XInterval where
  inf : XReal
  sup : XReal
deriving DecidableEq, Repr

/-- Expression handler kind of a node (SCIPgetConsExprExprHdlr outcome):
variable, value, sum, product, power, or some univariate function handler
identified by a number. -/
inductive EHdlr where
  | evar (vid : Nat)
  | eval
  | esum
  | eprod
  | epow
  | efunc (fid : Nat)
deriving DecidableEq, Repr

/-- Data carried by a quadratic recognition of a sum expression
(answers of SCIPgetConsExprQuadratic / SCIPgetConsExprQuadraticData /
SCIPgetConsExprQuadraticCurvature, external collaborators). -/
structure QuadData where
  nquadexprs : Nat
  nbilinexprs : Nat
  presentcurv : ExprCurv

/-- Per-node data of an original expression, including the answers of the
external expression-graph collaborator for this node. -/
structure ONode where
  oid : Nat
  hd : EHdlr
  sumCoefs : List ℚ
  prodCoef : ℚ
  powExp : ℚ
  activity : XInterval
  mono0 : ExprMono
  curvCb : ExprCurv → Option (List ExprCurv)
  quad : Option QuadData

/-- Original expression tree (immutable view of the solver expression graph;
node identity / pointer equality is modelled by the oid field). -/
inductive OExpr where
  | node (dat : ONode) (children : List OExpr)

def OExpr.dat : OExpr → ONode
  | .node d _ => d

def OExpr.children : OExpr → List OExpr
  | .node _ cs => cs

def OExpr.hd (o : OExpr) : EHdlr := o.dat.hd

def OExpr.oid (o : OExpr) : Nat := o.dat.oid

def defaultONode : ONode :=
  { oid := 0, hd := .eval, sumCoefs := [], prodCoef := 1, powExp := 1,
    activity := ⟨.ninf, .pinf⟩, mono0 := .unknown,
    curvCb := fun _ => none, quad := none }

instance : Inhabited OExpr := ⟨.node defaultONode []⟩

/-- Whether a node is a variable expression (SCIPisConsExprExprVar). -/
def isVarO (o : OExpr) : Bool :=
  match o.hd with
  | .evar _ => true
  | _ => false

/-- Whether a node is a value expression (SCIPisConsExprExprValue). -/
def isValO (o : OExpr) : Bool :=
  match o.hd with
  | .eval => true
  | _ => false

/-- Modelled from the spec: SCIPexprcurvNegate (external expression-curvature
arithmetic, not under src/) swaps convex and concave and keeps linear and
unknown. -/
def exprcurvNegate : ExprCurv → ExprCurv
  | .convex => .concave
  | .concave => .convex
  | .linear => .linear
  | .unknown => .unknown

/-- Modelled from the spec: SCIPexprcurvMultiply (external, not under src/)
accounts for the sign of a scalar coefficient, per the source comment
it negates the curvature when the coefficient is negative, and a zero
coefficient gives a linear (zero) function. -/
def exprcurvMultiply (factor : ℚ) (c : ExprCurv) : ExprCurv :=
  if factor = 0 then .linear
  else if 0 < factor then c
  else exprcurvNegate c

/-- Nonlinear handler configuration data (struct SCIP_ConsExpr_NlhdlrData;
the evalsol scratch solution is not part of the pure model). -/
structure NlhdlrData where
  isnlhdlrconvex : Bool
  detectsum : Bool
  preferextended : Bool
  cvxquadratic : Bool
  cvxsignomial : Bool
  cvxprodcomp : Bool
  handletrivial : Bool

/-- Context of one construction pass: handler configuration plus the
answers of per-handler external queries (bwdiff availability and the
monomial curvature inversion SCIPexprcurvMonomialInv, both external to
the embedded file). -/
structure NlCtx where
  dat : NlhdlrData
  hasBwdiff : EHdlr → Bool
  monomialInv : ExprCurv → List ℚ → List XInterval → Option (List ExprCurv)

/-- Private-copy expression node (nlhdlr-expression): either a (lazily
grown) copy of an original node with a required curvature, or a fresh
variable expression referring to the auxiliary variable of an original
node (introduced by the leaf collector). -/
inductive NlExpr where
  | copyOf (orig : OExpr) (curv : ExprCurv) (children : List NlExpr)
  | auxRef (orig : OExpr)

def NlExpr.childrenL : NlExpr → List NlExpr
  | .copyOf _ _ cs => cs
  | .auxRef _ => []

def NlExpr.childCount (e : NlExpr) : Nat := e.childrenL.length

def NlExpr.curvOf : NlExpr → ExprCurv
  | .copyOf _ c _ => c
  | .auxRef _ => .unknown

/-- Plan item produced by a curvature-check rule for one immediate child of
the candidate: either the child is pushed on the work stack with a required
curvature (expand), or the child's structure is consumed whole
(consumed: the child copy is materialized with the given curvature, its own
children are grown with the given curvature array — nlhdlrExprGrowChildren —
and those grandchildren are pushed instead of the child). -/
inductive PlanItem where
  | expand (o : OExpr) (c : ExprCurv)
  | consumed (o : OExpr) (c : ExprCurv) (kidcurvs : List ExprCurv)

/-- Effect of a successful curvature-check rule on the candidate node. -/
inductive GrowPlan where
  /-- success on a childless original (variable or value): no children. -/
  | leafDone
  /-- one plan item per immediate child of the original. -/
  | items (l : List PlanItem)
  /-- product-composition f(c·h+d)·h: the candidate gets the copies of f and
  of h as children (f at position fidx); the copy of f is wired down to the
  shared copy of h (through the copy of ch when the affine unwrap happened),
  and only the copy of h is pushed, with required curvature hcurv. -/
  | pcomp (fidx : Nat) (f : OExpr) (chOpt : Option OExpr) (h : OExpr) (hcurv : ExprCurv)

/-- Result of the shape match loop of curvCheckProductComposite: the factor
f, its argument ch, the coefficient c and the inner factor h with a flag
telling whether ch was unwrapped as c*h (sum with a single child). -/
structure FHData where
  fidx : Nat
  f : OExpr
  c : ℚ
  ch : OExpr
  h : OExpr
  unwrapped : Bool

/-- Body of the fidx loop of curvCheckProductComposite for one value of
fidx: f must have exactly one child ch; if ch is a sum with exactly one
child then c and h are read off that sum, otherwise c = 1 and h = ch; the
other factor of the product must be (pointer-)identical to h. -/
def fhAt (o : OExpr) (fidx : Nat) : Option FHData :=
  match o.children[fidx]?, o.children[1 - fidx]? with
  | some f, some other =>
    match f.children with
    | [ch] =>
      if ch.hd = .esum ∧ ch.children.length = 1 then
        let c := ch.dat.sumCoefs.getD 0 1
        let h := ch.children.getD 0 default
        if other.oid = h.oid then some ⟨fidx, f, c, ch, h, true⟩ else none
      else
        if other.oid = ch.oid then some ⟨fidx, f, 1, ch, ch, false⟩ else none
    | _ => none
  | _, _ => none

/-- Shape match of curvCheckProductComposite: try fidx = 0 then fidx = 1. -/
def findFH (o : OExpr) : Option FHData :=
  match fhAt o 0 with
  | some r => some r
  | none => fhAt o 1

/-- Type of a curvature check and expression-growing method
(DECL_CURVCHECK); arguments are the context, the isrootexpr flag, the
original expression the candidate mirrors, and the curvature the candidate
must achieve; the result is none on failure or the growing effect. -/
abbrev CurvCheck := NlCtx → Bool → OExpr → ExprCurv → Option GrowPlan

/-- Success and h-curvature decision of curvCheckProductComposite: the
sign-monotonicity conditions of the source comment, split on the desired
curvature (already multiplied by the product coefficient) and on the sign
of h's activity; on success it yields the curvature required for h. -/
def pcompHCurv (fh : FHData) (desiredcurv : ExprCurv) : Option ExprCurv :=
  let fbounds := fh.f.dat.activity
  let hbounds := fh.h.dat.activity
  let fmono := fh.f.dat.mono0
  if desiredcurv = .convex then
    if (0 < fh.c ∧ fmono ≠ .inc) ∨ (fh.c < 0 ∧ fmono ≠ .dec) then none
    else if (XReal.fin 0).leB hbounds.inf then
      if (fh.f.dat.curvCb .convex).isSome then
        some (if fbounds.inf.ltB (.fin 0) then .linear else .convex)
      else none
    else
      if (fh.f.dat.curvCb .concave).isSome then
        some (if (XReal.fin 0).ltB fbounds.sup then .linear else .concave)
      else none
  else
    if (0 < fh.c ∧ fmono ≠ .dec) ∨ (fh.c < 0 ∧ fmono ≠ .inc) then none
    else if hbounds.sup.leB (.fin 0) then
      if (fh.f.dat.curvCb .convex).isSome then
        some (if fbounds.inf.ltB (.fin 0) then .linear else .concave)
      else none
    else
      if (fh.f.dat.curvCb .concave).isSome then
        some (if (XReal.fin 0).ltB fbounds.sup then .linear else .convex)
      else none

/-- Rule curvCheckProductComposite: looks for f(c*h(x)+d)*h(x) and checks
the sign-monotonicity algebra described in the source comment. -/
def curvCheckProductComposite : CurvCheck := fun ctx _ o curv =>
  if ¬ctx.dat.cvxprodcomp then none
  else if o.hd ≠ .eprod then none
  else if o.children.length ≠ 2 then none
  else
    match findFH o with
    | none => none
    | some fh =>
      let hbounds := fh.h.dat.activity
      if hbounds.inf.ltB (.fin 0) ∧ (XReal.fin 0).ltB hbounds.sup then none
      else if fh.f.dat.mono0 = .unknown then none
      else
        match pcompHCurv fh (exprcurvMultiply o.dat.prodCoef curv) with
        | none => none
        | some hcurv =>
          some (.pcomp fh.fidx fh.f (if fh.unwrapped then some fh.ch else none) fh.h hcurv)

/-- Rule curvCheckSignomial: product of n ≥ 2 factors, each a power node or
an implicit exponent-1 factor; the external monomial curvature inversion
decides per-factor curvatures.  The preferextended test below compares the
child count of the freshly created copy (nlhdlrExprCreate and
nlhdlrExprGrowChildren create copies without children), exactly as the
source does. -/
def curvCheckSignomial : CurvCheck := fun ctx _ o curv =>
  if ¬ctx.dat.cvxsignomial then none
  else if o.hd ≠ .eprod then none
  else
    let nfactors := o.children.length
    if nfactors ≤ 1 then none
    else
      let exponents := o.children.map fun child =>
        if child.hd = .epow then child.dat.powExp else 1
      let bounds := o.children.map fun child =>
        if child.hd = .epow then (child.children.getD 0 default).dat.activity
        else child.dat.activity
      match ctx.monomialInv (exprcurvMultiply o.dat.prodCoef curv) exponents bounds with
      | none => none
      | some cl =>
        let curvs := (List.range nfactors).map fun i => cl.getD i .unknown
        some (.items (List.zipWith (fun child ci =>
          if child.hd = .epow then
            let inner : NlExpr := .copyOf (child.children.getD 0 default) ci []
            let ci2 := if ctx.dat.preferextended ∧ inner.childCount > 1 then .linear else ci
            PlanItem.consumed child ci [ci2]
          else
            let inner : NlExpr := .copyOf child ci []
            let ci2 := if ctx.dat.preferextended ∧ inner.childCount > 1 then .linear else ci
            PlanItem.expand child ci2) o.children curvs))

/-- Rule curvCheckQuadratic: sum recognized as a proper quadratic whose
computed curvature matches the wanted one; square and bilinear terms are
consumed whole (their arguments pushed with the curvlinear array), all
other summands pushed as linear. -/
def curvCheckQuadratic : CurvCheck := fun ctx isrootexpr o curv =>
  if ¬ctx.dat.cvxquadratic then none
  else if o.hd ≠ .esum then none
  else if curv = .linear then none
  else
    match o.dat.quad with
    | none => none
    | some quaddata =>
      if quaddata.nquadexprs ≤ 1 then none
      else if isrootexpr ∧ ¬ctx.dat.detectsum ∧ quaddata.nbilinexprs = 0 then none
      else if quaddata.presentcurv ≠ curv then none
      else
        some (.items (o.children.map fun child =>
          if child.hd = .epow ∧ child.dat.powExp = 2 then
            PlanItem.consumed child .unknown [.linear, .linear]
          else if child.hd = .eprod ∧ child.children.length = 2 then
            PlanItem.consumed child .unknown [.linear, .linear]
          else
            PlanItem.expand child .linear))

/-- Rule curvCheckExprhdlr: generic per-node-type curvature callback of the
original expression; declines on a non-quadratic root sum when detectsum is
disabled; when preferextended is set and there are several children, all
children are required to be linear. -/
def curvCheckExprhdlr : CurvCheck := fun ctx isrootexpr o curv =>
  let nchildren := o.children.length
  if nchildren = 0 then
    if (o.dat.curvCb curv).isSome then some .leafDone else none
  else if isrootexpr ∧ ¬ctx.dat.detectsum ∧ o.hd = .esum ∧ nchildren > 1 then none
  else
    match o.dat.curvCb curv with
    | none => none
    | some ccl =>
      let childcurv := (List.range nchildren).map fun i => ccl.getD i .unknown
      let childcurv2 :=
        if nchildren > 1 ∧ ctx.dat.preferextended then childcurv.map fun _ => ExprCurv.linear
        else childcurv
      some (.items (List.zipWith (fun child ci => PlanItem.expand child ci) o.children childcurv2))

/-- Fixed ordered list of curvature check methods (CURVCHECKS);
curvCheckExprhdlr is last. -/
def CURVCHECKS : List CurvCheck :=
  [curvCheckProductComposite, curvCheckSignomial, curvCheckQuadratic, curvCheckExprhdlr]

/-- Number of curvcheck methods. -/
def NCURVCHECKS : Nat := CURVCHECKS.length

/-- Try rules in order; the first success wins and later rules are not
consulted.  Returns the index of the successful method with its effect. -/
def tryList : List CurvCheck → NlCtx → Bool → OExpr → ExprCurv → Option (Nat × GrowPlan)
  | [], _, _, _, _ => none
  | r :: rs, ctx, isrootexpr, o, c =>
    match r ctx isrootexpr o c with
    | some g => some (0, g)
    | none => (tryList rs ctx isrootexpr o c).map fun ig => (ig.1 + 1, ig.2)

/-- Dispatch over CURVCHECKS, as in the method loop of constructExpr. -/
def tryCurvChecks (ctx : NlCtx) (isrootexpr : Bool) (o : OExpr) (c : ExprCurv) :
    Option (Nat × GrowPlan) :=
  tryList CURVCHECKS ctx isrootexpr o c

/-- Children copies created by nlhdlrExprGrowChildren for a consumed node:
one copy per original child, tagged with the corresponding entry of the
curvature array (reading the array as C does, entry i for child i). -/
def growPairs (o : OExpr) (kidcurvs : List ExprCurv) : List (OExpr × ExprCurv) :=
  List.zipWith (fun child i => (child, kidcurvs.getD i ExprCurv.unknown))
    o.children (List.range o.children.length)

/-- Whether an original expression is a sum with more than one child, each
child childless (exprIsMultivarLinear applied to an original node). -/
def exprIsMultivarLinear (o : OExpr) : Bool :=
  if o.hd ≠ .esum then false
  else if o.children.length ≤ 1 then false
  else o.children.all fun c => c.children.length = 0

/-!
Body of the work-stack loop of constructExpr, written recursively: a
node taken from the stack is either stopped at (bwdiff missing in the
convex handler; original multivariate linear sum in the concave handler),
or — when its required curvature is not unknown — handled by the first
successful curvature check method, or — when its required curvature is
unknown — expanded unconditionally.  The stack discipline only defers the
processing of pushed children, so pushing is modelled by direct recursion;
fuel bounds the recursion depth (any fuel at least the original tree height
gives the loop's result, and a node left unexpanded by exhausted fuel is a
leaf, as when no rule succeeds).
-/
/-- Work-stack loop body of constructExpr (see the comment above). -/
def constructNode : Nat → NlCtx → Bool → OExpr → ExprCurv → NlExpr
  | 0, _, _, o, c => .copyOf o c []
  | fuel + 1, ctx, isrootexpr, o, c =>
    if ctx.dat.isnlhdlrconvex ∧ ¬ctx.hasBwdiff o.hd then .copyOf o c []
    else if ¬ctx.dat.isnlhdlrconvex ∧ exprIsMultivarLinear o then .copyOf o c []
    else if c ≠ .unknown then
      match tryCurvChecks ctx isrootexpr o c with
      | none => .copyOf o c []
      | some (_, .leafDone) => .copyOf o c []
      | some (_, .items l) =>
        .copyOf o c (l.map fun it =>
          match it with
          | .expand ko kc => constructNode fuel ctx false ko kc
          | .consumed ko kc kidcurvs =>
            .copyOf ko kc ((growPairs ko kidcurvs).map fun p =>
              constructNode fuel ctx false p.1 p.2))
      | some (_, .pcomp fidx f chOpt h hcurv) =>
        .copyOf o c
          (let hTree := constructNode fuel ctx false h hcurv
           let inner :=
             match chOpt with
             | some ch => NlExpr.copyOf ch .unknown [hTree]
             | none => hTree
           let fTree := NlExpr.copyOf f .unknown [inner]
           if fidx = 0 then [fTree, hTree] else [hTree, fTree])
    else
      .copyOf o c (o.children.map fun k => constructNode fuel ctx false k .unknown)

/-- Side effects of a successful rule on the candidate node: the children
wired into the candidate; pushed children are processed by the loop
(constructNode). -/
def applyGrowPlan : Nat → NlCtx → GrowPlan → List NlExpr
  | _, _, .leafDone => []
  | fuel, ctx, .items l =>
    l.map fun it =>
      match it with
      | .expand ko kc => constructNode fuel ctx false ko kc
      | .consumed ko kc kidcurvs =>
        .copyOf ko kc ((growPairs ko kidcurvs).map fun p =>
          constructNode fuel ctx false p.1 p.2)
  | fuel, ctx, .pcomp fidx f chOpt h hcurv =>
    let hTree := constructNode fuel ctx false h hcurv
    let inner :=
      match chOpt with
      | some ch => NlExpr.copyOf ch .unknown [hTree]
      | none => hTree
    let fTree := NlExpr.copyOf f .unknown [inner]
    if fidx = 0 then [fTree, hTree] else [hTree, fTree]

mutual
/-- Number of leafs counted by the loop of constructExpr: a pop that pushed
nothing, i.e. a node of the constructed tree (before the concave postpass)
that stayed childless. -/
def nleafsOf : NlExpr → Nat
  | .copyOf _ _ [] => 1
  | .copyOf _ _ (c :: cs) => nleafsOfL (c :: cs)
  | .auxRef _ => 1
/-- List version of nleafsOf. -/
def nleafsOfL : List NlExpr → Nat
  | [] => 0
  | e :: es => nleafsOf e + nleafsOfL es
end


mutual
/-- Whether every leaf of the constructed tree (pop that pushed nothing) is
an original variable or value expression; otherwise constructExpr reports
curvsuccess = FALSE. -/
def curvOkB : NlExpr → Bool
  | .copyOf o _ [] => isVarO o || isValO o
  | .copyOf _ _ (c :: cs) => curvOkBL (c :: cs)
  | .auxRef _ => true
/-- List version of curvOkB. -/
def curvOkBL : List NlExpr → Bool
  | [] => true
  | e :: es => curvOkB e && curvOkBL es
end

/-- Whether a constructed copy node is a sum with more than one child, each
child childless (exprIsMultivarLinear applied in the postprocessing pass,
where it reads the copy, not the original). -/
def exprIsMultivarLinearC : NlExpr → Bool
  | .copyOf o _ cs =>
    if o.hd ≠ .esum then false
    else if cs.length ≤ 1 then false
    else cs.all fun c => c.childCount = 0
  | .auxRef _ => false

/-- Strip the children of a constructed copy node (SCIPremoveConsExprExprChildren). -/
def dropChildren : NlExpr → NlExpr
  | .copyOf o c _ => .copyOf o c []
  | .auxRef o => .auxRef o

mutual
/-- Postprocessing pass of constructExpr in the concave handler: walk the
finished tree top-down; any child recognized as a multivariate linear sum
of leaves has its children removed again (and its subtree is skipped),
so it becomes a single auxiliary-variable leaf later.  The root itself is
never stripped (the iterator checks target children only). -/
def removeMultivarLinear : NlExpr → NlExpr
  | .copyOf o c cs => .copyOf o c (removeMultivarLinearL cs)
  | .auxRef o => .auxRef o
/-- List version of removeMultivarLinear, handling each visited child. -/
def removeMultivarLinearL : List NlExpr → List NlExpr
  | [] => []
  | ch :: rest =>
    (if exprIsMultivarLinearC ch then dropChildren ch else removeMultivarLinear ch)
      :: removeMultivarLinearL rest
end

/-- Triviality check at the end of constructExpr: without handletrivial, or
when the root is a sum, the copy is trivial unless some child of the root
itself has children; with handletrivial (and a non-sum root) the copy is
trivial only when the root has no children. -/
def isTrivialTree (ctx : NlCtx) (root : NlExpr) : Bool :=
  let rootIsSum : Bool :=
    match root with
    | .copyOf o _ _ => o.hd = .esum
    | .auxRef _ => false
  if ¬ctx.dat.handletrivial || rootIsSum then
    ¬ root.childrenL.any fun c => c.childCount > 0
  else
    ¬ root.childCount > 0

/-- constructExpr: build the private copy of rootexpr with required
curvature curv; report the number of leafs and whether the curvature was
achieved w.r.t. the original variables; in the concave handler run the
multivariate-linear postprocessing; finally discard (return none) a
trivial copy. -/
def constructExpr (fuel : Nat) (ctx : NlCtx) (rootexpr : OExpr) (curv : ExprCurv) :
    Option NlExpr × Nat × Bool :=
  let t := constructNode fuel ctx true rootexpr curv
  let nleafs := nleafsOf t
  let curvsuccess := curvOkB t
  let t2 := if ctx.dat.isnlhdlrconvex then t else removeMultivarLinear t
  (if isTrivialTree ctx t2 then none else some t2, nleafs, curvsuccess)

/-- Key of the leaf-to-index table: either an original variable expression
(shared into the copy, identified by its node id) or the fresh variable
expression referring to the auxiliary variable of an original node (the
auxiliary variable and its variable expression are unique per original
node, so the key is that node's id). -/
inductive LeafKey where
  | varKey (oid : Nat)
  | auxKey (oid : Nat)
deriving DecidableEq, Repr

/-- State threaded through collectLeafs: the leaf2index table (kept in
insertion order), the number of indices handed out, and whether an
auxiliary variable was introduced. -/
structure CLState where
  table : List (LeafKey × Nat)
  nindices : Nat
  usingaux : Bool
deriving Repr

/-- Membership test in the leaf2index table. -/
def lkMem (k : LeafKey) (t : List (LeafKey × Nat)) : Bool :=
  t.any fun p => p.1 = k

/-- Register a leaf with the next free integer index if not already present. -/
def insertIfAbsent (k : LeafKey) (st : CLState) : CLState :=
  if lkMem k st.table then st
  else { st with table := st.table ++ [(k, st.nindices)], nindices := st.nindices + 1 }

/-- Treatment of a childless to-be-visited child in collectLeafs: a child
whose original (via the origin map) has children is replaced by a fresh
variable expression for the auxiliary variable of the original and
registered; a child that is an original variable is registered directly;
anything else (value expression) is left alone and never registered. -/
def handleLeaf (ch : NlExpr) (st : CLState) : NlExpr × CLState :=
  match ch with
  | .copyOf o c _ =>
    if o.children.length > 0 then
      let st1 := insertIfAbsent (.auxKey o.oid) st
      (.auxRef o, { st1 with usingaux := true })
    else if isVarO o then (.copyOf o c [], insertIfAbsent (.varKey o.oid) st)
    else (.copyOf o c [], st)
  | .auxRef o => (.auxRef o, st)

mutual
/-- Descent step of collectLeafs into a node that still has children. -/
def collectNode : NlExpr → CLState → NlExpr × CLState
  | .copyOf o c cs, st =>
    let r := collectKids cs st
    (.copyOf o c r.1, r.2)
  | .auxRef o, st => (.auxRef o, st)
/-- Depth-first child visiting loop of collectLeafs over a child list:
childless children are handled by handleLeaf (and possibly replaced),
children with children are descended into. -/
def collectKids : List NlExpr → CLState → List NlExpr × CLState
  | [], st => ([], st)
  | ch :: rest, st =>
    let step : NlExpr × CLState :=
      if ch.childCount = 0 then handleLeaf ch st else collectNode ch st
    let r2 := collectKids rest step.2
    (step.1 :: r2.1, r2.2)
end

/-- collectLeafs: walk the finished copy (whose root has children) in
depth-first pre-order, ensure every non-value leaf corresponds to a
variable, and index the distinct leaves. -/
def collectLeafs (root : NlExpr) (st : CLState) : NlExpr × CLState :=
  collectNode root st

/-- Handler expression data assembled by createNlhdlrExprData: the collected
copy, the number of indexed leaves, the leaf table, whether auxiliary
variables were used, and the curvature recorded back onto the original
expression (done exactly when no auxiliary variable was introduced). -/
structure NlhdlrExprData where
  nlexpr : NlExpr
  nleafs : Nat
  table : List (LeafKey × Nat)
  usingaux : Bool
  curvRecorded : Option ExprCurv

/-- createNlhdlrExprData: run collectLeafs starting from a fresh count and
record the curvature on the original expression if no auxvar was used. -/
def createNlhdlrExprData (root : NlExpr) : NlhdlrExprData :=
  let r := collectLeafs root ⟨[], 0, false⟩
  { nlexpr := r.1, nleafs := r.2.nindices, table := r.2.table,
    usingaux := r.2.usingaux,
    curvRecorded := if r.2.usingaux then none else some r.1.curvOf }

/-- Modelled from the spec: numeric tolerance parameters of the host solver
(SCIPepsilon and SCIPinfinity, external, not under src/). -/
structure NumTol where
  inf : ℚ
  eps : ℚ

/-- Modelled from the spec: SCIPisInfinity — a value at or beyond the
infinity threshold counts as infinite. -/
def isInfinityQ (n : NumTol) (x : ℚ) : Bool := n.inf ≤ x

/-- Modelled from the spec: SCIPisZero with the epsilon tolerance. -/
def isZeroQ (n : NumTol) (x : ℚ) : Bool := |x| ≤ n.eps

/-- Modelled from the spec: SCIPfloor, the epsilon-tolerant floor. -/
def epsFloorQ (n : NumTol) (x : ℚ) : ℚ := (⌊x + n.eps⌋ : ℤ)

/-- Modelled from the spec: SCIPceil, the epsilon-tolerant ceiling. -/
def epsCeilQ (n : NumTol) (x : ℚ) : ℚ := (⌈x - n.eps⌉ : ℤ)

/-- Modelled from the spec: SCIPisIntegral — the epsilon-tolerant
fractionality is at most epsilon. -/
def isIntegralQ (n : NumTol) (x : ℚ) : Bool := x - epsFloorQ n x ≤ n.eps

/-- Modelled from the spec: SCIPround, rounding to the nearest integer. -/
def roundQ (x : ℚ) : ℚ := (⌊x + 1/2⌋ : ℤ)

/-- Modelled from the spec: SCIPisEQ, equality within the tolerance. -/
def isEQQ (n : NumTol) (a b : ℚ) : Bool := |a - b| ≤ n.eps

/-- Modelled from the spec: SCIPisRelEQ, equality of the relative
difference within the tolerance. -/
def isRelEQ (n : NumTol) (a b : ℚ) : Bool :=
  |(a - b) / max 1 (max |a| |b|)| ≤ n.eps

/-- Rowprep data produced by the linear estimators: one coefficient per
leaf variable, the constant side, and the locality flag. -/
structure Rowprep where
  coefs : List ℚ
  cnst : ℚ
  islocal : Bool
deriving DecidableEq, Repr

/-- Inputs of estimateConvexSecant: the evaluation of the constructed copy
as a function of the single integer-constrained leaf variable, the global
lower bound of that variable, and the current solution value. -/
structure SecantIn where
  evalAt : ℚ → ℚ
  lbGlobal : ℚ
  x : ℚ

/-- estimateConvexSecant: put a secant through the two adjacent integer
points around the current value (for an integral value, the pair away from
the global lower bound), declining on an infinite function value or when
the two values differ so much that the secant would be numerically
meaningless (too steep). -/
def estimateConvexSecant (n : NumTol) (s : SecantIn) : Option Rowprep :=
  let lr : ℚ × ℚ :=
    if isIntegralQ n s.x then
      let x2 := roundQ s.x
      if isEQQ n x2 s.lbGlobal then (x2, x2 + 1) else (x2 - 1, x2)
    else
      (epsFloorQ n s.x, epsCeilQ n s.x)
  let fleft := s.evalAt lr.1
  if isInfinityQ n |fleft| then none
  else
    let fright := s.evalAt lr.2
    if isInfinityQ n |fright| then none
    else if (¬isZeroQ n fleft ∧ 1 < |fright / fleft| * n.eps) ∨
            (¬isZeroQ n fright ∧ 1 < |fleft / fright| * n.eps) then none
    else
      some { coefs := [fright - fleft],
             cnst := fleft - (fright - fleft) * lr.1,
             islocal := false }

/-- Inputs of estimateGradient: validity of the auxiliary value (the value
of the copy at the solution; SCIP_INVALID models an evaluation error), the
value itself, validity of the gradient, and for each leaf its solution
value and partial derivative (none models SCIP_INVALID). -/
structure GradIn where
  auxvalueValid : Bool
  fval : ℚ
  diffOk : Bool
  leafs : List (ℚ × Option ℚ)

/-- Accumulation loop of estimateGradient over the leaf variables
(performed in double-double arithmetic in C, exactly here). -/
def gradLoop : List (ℚ × Option ℚ) → ℚ → List ℚ → Option (List ℚ × ℚ)
  | [], cnst, coefs => some (coefs.reverse, cnst)
  | (varval, deriv) :: rest, cnst, coefs =>
    match deriv with
    | none => none
    | some d => gradLoop rest (cnst - d * varval) (d :: coefs)

/-- estimateGradient: tangent cut f(sol) + gradient times (x - sol);
declines on an evaluation or differentiation error. -/
def estimateGradient (g : GradIn) : Option Rowprep :=
  if ¬g.auxvalueValid then none
  else if ¬g.diffOk then none
  else
    match gradLoop g.leafs g.fval [] with
    | none => none
    | some r => some { coefs := r.1, cnst := r.2, islocal := false }

/-- Per-leaf data of estimateVertexPolyhedral: local bounds and the current
solution value of the leaf variable. -/
structure VPLeaf where
  lb : ℚ
  ub : ℚ
  solval : ℚ
deriving DecidableEq, Repr

/-- Arguments with which estimateVertexPolyhedral invokes the external
facet routine SCIPcomputeFacetVertexPolyhedral. -/
structure FacetCall where
  xstar : List ℚ
  box : List (ℚ × ℚ)
  overestimate : Bool
  targetvalue : ℚ
deriving DecidableEq, Repr

/-- Leaf scanning loop of estimateVertexPolyhedral: abort on an infinite
bound; accumulate the reference point and whether all variables are fixed
(bounds equal within the relative tolerance). -/
def vpLoop (n : NumTol) (usemidpoint : Bool) :
    List VPLeaf → Bool → List ℚ → Option (Bool × List ℚ)
  | [], allfixed, acc => some (allfixed, acc.reverse)
  | l :: rest, allfixed, acc =>
    if isInfinityQ n (-l.lb) then none
    else if isInfinityQ n l.ub then none
    else
      vpLoop n usemidpoint rest (allfixed && isRelEQ n l.lb l.ub)
        ((if usemidpoint then (l.lb + l.ub) / 2 else l.solval) :: acc)

/-- estimateVertexPolyhedral up to the facet invocation: returns none
(failure, success stays FALSE) before the facet routine whenever a leaf
bound is infinite or all leaves are fixed; otherwise returns the arguments
handed to the external facet routine. -/
def estimateVertexPolyhedral (n : NumTol) (leafs : List VPLeaf)
    (usemidpoint overestimate : Bool) (targetvalue : ℚ) : Option FacetCall :=
  match vpLoop n usemidpoint leafs true [] with
  | none => none
  | some r =>
    if r.1 then none
    else some { xstar := r.2, box := leafs.map fun l => (l.lb, l.ub),
                overestimate := overestimate, targetvalue := targetvalue }

/-- Outputs of an estimate callback: the success flag, whether a rowprep
was stored into the output array, and the addedbranchscores flag. -/
structure EstimateOut where
  success : Bool
  rowprepStored : Bool
  addedbranchscores : Bool
deriving DecidableEq, Repr

/-- Row produced by the convex estimate callback, remembering which
strategy produced it. -/
inductive ConvexRow where
  | secRow (r : Rowprep)
  | gradRow (r : Rowprep)
deriving DecidableEq, Repr

/-- Inputs of nlhdlrEstimateConvex: curvature of the constructed copy, the
requested side, the number of leaves and integrality of the single leaf,
and the inputs of the two estimation strategies. -/
structure ConvexEstIn where
  curvature : ExprCurv
  overestimate : Bool
  nleafs : Nat
  leafIntegral : Bool
  secant : SecantIn
  gradient : GradIn

/-- nlhdlrEstimateConvex: returns nothing when estimating on the non-convex
side; otherwise tries the secant (single integral leaf only) and falls back
to the gradient tangent. -/
def nlhdlrEstimateConvex (n : NumTol) (inp : ConvexEstIn) : EstimateOut × Option ConvexRow :=
  if (inp.overestimate ∧ inp.curvature = .convex) ∨
     (¬inp.overestimate ∧ inp.curvature = .concave) then
    (⟨false, false, false⟩, none)
  else
    let sec : Option Rowprep :=
      if inp.nleafs = 1 ∧ inp.leafIntegral then estimateConvexSecant n inp.secant
      else none
    match sec with
    | some r => (⟨true, true, false⟩, some (.secRow r))
    | none =>
      match estimateGradient inp.gradient with
      | some r => (⟨true, true, false⟩, some (.gradRow r))
      | none => (⟨false, false, false⟩, none)

/-- Inputs of nlhdlrEstimateConcave: curvature and side, the leaf data for
the vertex-polyhedral estimation, the external facet routine's answer as an
oracle, and the branching-score data (validity and value of the auxiliary
evaluation, value of the auxiliary variable, and the external scoring
accumulator's answer as an oracle of the violation). -/
structure ConcaveEstIn where
  curvature : ExprCurv
  overestimate : Bool
  leafs : List VPLeaf
  targetvalue : ℚ
  facetOracle : FacetCall → Option Rowprep
  addbranchscores : Bool
  auxvalueValid : Bool
  auxvalue : ℚ
  auxvarval : ℚ
  scoreOracle : ℚ → Bool

/-- Violation computed by the branching-score block of
nlhdlrEstimateConcave (an invalid auxiliary value means always branch,
modelled by the infinity threshold itself). -/
def concaveViolation (n : NumTol) (inp : ConcaveEstIn) : ℚ :=
  if ¬inp.auxvalueValid then n.inf
  else if ¬inp.overestimate then max 0 (inp.auxvalue - inp.auxvarval)
  else max 0 (inp.auxvarval - inp.auxvalue)

/-- nlhdlrEstimateConcave: returns nothing when estimating on the
non-concave side (overestimate with a concave copy or underestimate with a
convex copy); otherwise runs the vertex-polyhedral estimation and, when
requested, distributes the violation as branching scores even if the
estimator failed. -/
def nlhdlrEstimateConcave (n : NumTol) (inp : ConcaveEstIn) : EstimateOut × Option Rowprep :=
  if (inp.overestimate ∧ inp.curvature = .concave) ∨
     (¬inp.overestimate ∧ inp.curvature = .convex) then
    (⟨false, false, false⟩, none)
  else
    let est : Option Rowprep :=
      match estimateVertexPolyhedral n inp.leafs false inp.overestimate inp.targetvalue with
      | none => none
      | some call => inp.facetOracle call
    let scores : Bool :=
      if inp.addbranchscores then inp.scoreOracle (concaveViolation n inp) else false
    (⟨est.isSome, est.isSome, scores⟩, est)

/-- Leaf-count filter of nlhdlrDetectConcave: a successfully constructed
expression with more leaves than the vertex-polyhedral maximum dimension is
released again (detection failure for that side), before any estimation. -/
def concaveDetectFilter (maxvertexpolydim : Nat) (root : Option NlExpr) (nleafs : Nat) :
    Option NlExpr :=
  match root with
  | none => none
  | some t => if maxvertexpolydim < nleafs then none else some t

mutual
/-- Invariant of claim C9: every node of a constructed copy either is
childless or has exactly as many children as the original node it maps to
under the origin map. -/
def childCountOkB : NlExpr → Bool
  | .copyOf o _ cs => (cs.isEmpty || cs.length == o.children.length) && childCountOkL cs
  | .auxRef _ => true
/-- List version of childCountOkB. -/
def childCountOkL : List NlExpr → Bool
  | [] => true
  | e :: es => childCountOkB e && childCountOkL es
end

/-- Shape facts guaranteed by every successful rule about its effect,
needed to propagate the child-count invariant. -/
def GrowPlanOk (o : OExpr) : GrowPlan → Prop
  | .leafDone => True
  | .items l => l.length = o.children.length
  | .pcomp _ f chOpt _ _ =>
    o.children.length = 2 ∧ f.children.length = 1 ∧
      ∀ ch, chOpt = some ch → ch.children.length = 1

/-- Default configuration of the convex nonlinear handler (the DEFAULT_
parameter macros of the source). -/
def nlhdlrDataConvexDefault : NlhdlrData :=
  { isnlhdlrconvex := true, detectsum := false, preferextended := true,
    cvxquadratic := true, cvxsignomial := true, cvxprodcomp := true,
    handletrivial := false }

/-- Convex-handler context with default parameters; every handler supports
bwdiff and the monomial inversion oracle is unused. -/
def ctxConvexDefault : NlCtx :=
  { dat := nlhdlrDataConvexDefault, hasBwdiff := fun _ => true,
    monomialInv := fun _ _ _ => none }

/-- Convex-handler context with handletrivial enabled. -/
def ctxConvexHT : NlCtx :=
  { ctxConvexDefault with dat := { nlhdlrDataConvexDefault with handletrivial := true } }

/-- Node-data maker for examples. -/
def mkONode (oid : Nat) (hd : EHdlr) : ONode :=
  { defaultONode with oid := oid, hd := hd }

/-- Example for C2 and C1: variable x with activity contained in [0, 5]. -/
def ex2x : OExpr :=
  .node
    { mkONode 5 (.evar 0) with
      activity := ⟨.fin 0, .fin 5⟩
      curvCb := fun _ => some [] } []

/-- Example for C2: the affine argument 2*x of f. -/
def ex2ch : OExpr := .node { mkONode 4 .esum with sumCoefs := [2] } [ex2x]

/-- Example for C2: an increasing convex-capable nonnegative univariate f
applied to 2*x (such as the exponential). -/
def ex2f : OExpr :=
  .node
    { mkONode 3 (.efunc 0) with
      activity := ⟨.fin 0, .pinf⟩
      mono0 := .inc
      curvCb := fun c => if c = .convex then some [.convex] else none } [ex2ch]

/-- Example for C2: the product f(2*x) * x. -/
def ex2prod : OExpr := .node (mkONode 1 .eprod) [ex2f, ex2x]

/-- Example for C3: variable x. -/
def ex3x : OExpr := .node { mkONode 14 (.evar 1) with curvCb := fun _ => some [] } []

/-- Example for C3: variable y. -/
def ex3y : OExpr := .node { mkONode 15 (.evar 2) with curvCb := fun _ => some [] } []

/-- Example for C3: the square term x^2. -/
def ex3sq : OExpr := .node { mkONode 11 .epow with powExp := 2 } [ex3x]

/-- Example for C3: the bilinear term x*y. -/
def ex3bil : OExpr := .node (mkONode 12 .eprod) [ex3x, ex3y]

/-- Example for C3: variable z as additional linear summand. -/
def ex3z : OExpr := .node { mkONode 13 (.evar 3) with curvCb := fun _ => some [] } []

/-- Example for C3: a sum recognized as quadratic (two quadratic
expressions, one bilinear term, convex). -/
def ex3sum : OExpr :=
  .node { mkONode 10 .esum with quad := some ⟨2, 1, .convex⟩ } [ex3sq, ex3bil, ex3z]

/-- Example for C4: variable inside the multi-child factor. -/
def ex4x : OExpr := .node (mkONode 22 (.evar 4)) []

/-- Example for C4: second variable inside the multi-child factor. -/
def ex4y : OExpr := .node (mkONode 23 (.evar 5)) []

/-- Example for C4: a factor with two children (the sum x + y). -/
def ex4s : OExpr := .node (mkONode 21 .esum) [ex4x, ex4y]

/-- Example for C4: a plain variable factor. -/
def ex4z : OExpr := .node (mkONode 24 (.evar 6)) []

/-- Example for C4: the signomial-shaped product (x + y) * z. -/
def ex4prod : OExpr := .node (mkONode 20 .eprod) [ex4s, ex4z]

/-- Example for C4: convex-handler defaults (preferextended enabled) with a
monomial-inversion oracle accepting the product as convex with convex
factors. -/
def ctx4 : NlCtx :=
  { dat := nlhdlrDataConvexDefault, hasBwdiff := fun _ => true,
    monomialInv := fun c _ _ => if c = .convex then some [.convex, .convex] else none }

/-- Example for C5: plain variable x. -/
def ex5x : OExpr := .node { mkONode 31 (.evar 7) with curvCb := fun _ => some [] } []

/-- Example for C5: plain variable y. -/
def ex5y : OExpr := .node { mkONode 32 (.evar 8) with curvCb := fun _ => some [] } []

/-- Example for C5: the bare sum x + y of two plain variables. -/
def ex5sum : OExpr :=
  .node { mkONode 30 .esum with sumCoefs := [1, 1], curvCb := fun c => some [c, c] }
    [ex5x, ex5y]

/-- Standard numeric tolerances for examples: infinity threshold 10^20 and
epsilon 10^-9 (SCIP defaults). -/
def numTolStd : NumTol := { inf := 10 ^ 20, eps := 1 / 1000000000 }

/-- Example for C6: the secant inputs for f(x) = x^2 at x = 2.7 with the
leaf variable's global lower bound 0. -/
def ex6secant : SecantIn := { evalAt := fun q => q * q, lbGlobal := 0, x := 27 / 10 }

/-- Example for C8: an original node with one child (a subexpression the
construction gave up on). -/
def ex8inner : OExpr := .node (mkONode 41 (.efunc 1)) [ex5x]

/-- Example for C8: original root, a sum of x and the inner subexpression. -/
def ex8sum : OExpr := .node (mkONode 40 .esum) [ex5x, ex8inner]

/-- Example for C8: the constructed copy in which the inner subexpression
stayed childless (curvature construction gave up on it). -/
def ex8tree : NlExpr :=
  .copyOf ex8sum .convex [.copyOf ex5x .convex [], .copyOf ex8inner .convex []]

/-- Example for C10: an invocation of the concave handler's estimate
callback with overestimate requested on a convex copy, bounded unfixed
leaf, and a facet oracle that succeeds. -/
def ex10 : ConcaveEstIn :=
  { curvature := .convex, overestimate := true,
    leafs := [⟨0, 1, 1 / 2⟩], targetvalue := 100,
    facetOracle := fun _ => some ⟨[1], 0, true⟩,
    addbranchscores := false, auxvalueValid := true, auxvalue := 0, auxvarval := 0,
    scoreOracle := fun _ => true }

mutual
/-- Whether a visited child is itself a childless copy whose original has
children, or contains such a position below it — exactly where
collectLeafs introduces an auxiliary variable. -/
def hasAuxLeafB : NlExpr → Bool
  | .copyOf o _ [] => decide (o.children.length > 0)
  | .copyOf _ _ (k :: ks) => hasAuxLeafL (k :: ks)
  | .auxRef _ => false
/-- List version of hasAuxLeafB over the visited children. -/
def hasAuxLeafL : List NlExpr → Bool
  | [] => false
  | ch :: rest => hasAuxLeafB ch || hasAuxLeafL rest
end

/-- Root version of hasAuxLeafL (the root itself is never a visited child). -/
def hasAuxLeaf : NlExpr → Bool
  | .copyOf _ _ cs => hasAuxLeafL cs
  | .auxRef _ => false

/-- Example for C10 witness: a convex-handler estimate invocation on the
wrong side (overestimate with a convex copy). -/
def ex10b : ConvexEstIn :=
  { curvature := .convex, overestimate := true, nleafs := 1, leafIntegral := true,
    secant := ex6secant, gradient := ⟨true, 0, true, []⟩ }

/-! Theorems.  Helper lemmas first, then one theorem per claim (with
witnesses and counterexamples where required). -/

/-- C4: the code contradicts its own comment (require linearity of factors
with more than one child when preferextended is set): evaluated at the
signomial (x + y) * z with preferextended enabled, the rule succeeds but
leaves the two-children factor x + y with the curvature computed by the
monomial inversion instead of forcing it to Linear, because the test reads
the child count of the freshly created (still childless) copy. -/
theorem claim4_signomial_preferextended :
    ctx4.dat.preferextended = true ∧
    ex4s.children.length = 2 ∧
    curvCheckSignomial ctx4 false ex4prod .convex =
      some (.items [.expand ex4s .convex, .expand ex4z .convex]) :=
  ⟨rfl, rfl, rfl⟩

/-- C5 counterexample: for the bare sum x + y of two plain variables,
construction fails (returns a null root) even when handletrivial is
enabled, refuting the claimed success in that configuration. -/
theorem claim5_counterexample :
    ctxConvexHT.dat.handletrivial = true ∧
    (constructExpr 5 ctxConvexHT ex5sum .convex).1 = none :=
  ⟨rfl, rfl⟩

/-- C5 (amended): for a bare sum x + y of two plain variables, construction
reports detection failure under the default configuration and also when
handletrivial is enabled, because a trivial sum is always rejected;
handletrivial only relaxes the triviality test for non-sum roots (and in
general any copy whose root is a sum with only childless children is
trivial under every configuration). -/
theorem claim5_trivial_sum :
    (constructExpr 5 ctxConvexDefault ex5sum .convex).1 = none ∧
    (constructExpr 5 ctxConvexHT ex5sum .convex).1 = none ∧
    (∀ (ctx : NlCtx) (o : OExpr) (c : ExprCurv) (cs : List NlExpr),
      o.hd = .esum → (∀ e ∈ cs, e.childCount = 0) →
      isTrivialTree ctx (.copyOf o c cs) = true) := by
  refine ⟨rfl, rfl, ?_⟩
  intro ctx o c cs hsum hkids
  simp only [isTrivialTree, hsum, NlExpr.childrenL]
  have hany : cs.any (fun e => decide (e.childCount > 0)) = false := by
    rw [List.any_eq_false]
    intro e he
    simp [hkids e he]
  simp [hany]

/-- C6: for a non-integral current value x (and finite, not-too-steep
function values), the convex secant estimator returns the line through the
two adjacent integers bracketing x: coefficient f(ceil x) - f(floor x) and
constant f(floor x) - (f(ceil x) - f(floor x)) * floor x. -/
theorem claim6_secant (n : NumTol) (s : SecantIn)
    (hni : isIntegralQ n s.x = false)
    (hl : isInfinityQ n |s.evalAt (epsFloorQ n s.x)| = false)
    (hr : isInfinityQ n |s.evalAt (epsCeilQ n s.x)| = false)
    (hsteep : ¬ ((¬isZeroQ n (s.evalAt (epsFloorQ n s.x)) ∧
        1 < |s.evalAt (epsCeilQ n s.x) / s.evalAt (epsFloorQ n s.x)| * n.eps) ∨
      (¬isZeroQ n (s.evalAt (epsCeilQ n s.x)) ∧
        1 < |s.evalAt (epsFloorQ n s.x) / s.evalAt (epsCeilQ n s.x)| * n.eps))) :
    estimateConvexSecant n s =
      some { coefs := [s.evalAt (epsCeilQ n s.x) - s.evalAt (epsFloorQ n s.x)],
             cnst := s.evalAt (epsFloorQ n s.x) -
               (s.evalAt (epsCeilQ n s.x) - s.evalAt (epsFloorQ n s.x)) * epsFloorQ n s.x,
             islocal := false } := by
  rw [estimateConvexSecant]
  simp only [hni, Bool.false_eq_true, if_false, hl, hr, if_neg hsteep]

/-- C6 witness: for f(x) = x * x at x = 2.7 with tolerance 10^-9, the
secant estimator produces exactly the line 5 * x - 6. -/
theorem claim6_secant_witness :
    isIntegralQ numTolStd ex6secant.x = false ∧
    estimateConvexSecant numTolStd ex6secant =
      some { coefs := [5], cnst := -6, islocal := false } := by
  have hfz : (⌊(27:ℚ)/10 + 1/1000000000⌋ : ℤ) = 2 := by
    rw [Int.floor_eq_iff]
    norm_num
  have hcz : (⌈(27:ℚ)/10 - 1/1000000000⌉ : ℤ) = 3 := by
    rw [Int.ceil_eq_iff]
    norm_num
  have hf : epsFloorQ numTolStd ex6secant.x = 2 := by
    rw [epsFloorQ, show ex6secant.x = 27/10 from rfl,
      show numTolStd.eps = 1/1000000000 from rfl, hfz]
    norm_num
  have hc : epsCeilQ numTolStd ex6secant.x = 3 := by
    rw [epsCeilQ, show ex6secant.x = 27/10 from rfl,
      show numTolStd.eps = 1/1000000000 from rfl, hcz]
    norm_num
  have hni : isIntegralQ numTolStd ex6secant.x = false := by
    rw [isIntegralQ, hf]
    norm_num [ex6secant, numTolStd]
  refine ⟨hni, ?_⟩
  have key := claim6_secant numTolStd ex6secant hni ?hl ?hr ?hs
  case hl => rw [hf]; norm_num [ex6secant, isInfinityQ, numTolStd]
  case hr => rw [hc]; norm_num [ex6secant, isInfinityQ, numTolStd]
  case hs =>
    rw [hf, hc]
    norm_num [ex6secant, isZeroQ, numTolStd]
    constructor <;> rw [abs_of_nonneg (by norm_num)] <;> norm_num
  rw [key, hf, hc]
  norm_num [ex6secant]

/-- Auxiliary for C7: the leaf scan aborts as soon as some leaf has an
infinite bound. -/
theorem vpLoop_infinite (n : NumTol) (um : Bool) :
    ∀ (leafs : List VPLeaf) (allfixed : Bool) (acc : List ℚ),
      (∃ l ∈ leafs, isInfinityQ n (-l.lb) = true ∨ isInfinityQ n l.ub = true) →
      vpLoop n um leafs allfixed acc = none := by
  intro leafs
  induction leafs with
  | nil => intro _ _ h; simp at h
  | cons l rest ih =>
    intro allfixed acc h
    rw [vpLoop]
    by_cases hlb : isInfinityQ n (-l.lb) = true
    · simp [hlb]
    · by_cases hub : isInfinityQ n l.ub = true
      · simp only [Bool.not_eq_true] at hlb
        simp [hlb, hub]
      · simp only [Bool.not_eq_true] at hlb hub
        simp only [hlb, hub, Bool.false_eq_true, if_false]
        apply ih
        rcases h with ⟨l2, hmem, hbad⟩
        rcases List.mem_cons.mp hmem with heq | h2
        · exfalso
          rw [heq] at hbad
          rcases hbad with hb | hb
          · rw [hlb] at hb; exact Bool.false_ne_true hb
          · rw [hub] at hb; exact Bool.false_ne_true hb
        · exact ⟨l2, h2, hbad⟩

/-- Auxiliary for C7: when every leaf has relatively equal bounds, the scan
keeps the allfixed accumulator unchanged. -/
theorem vpLoop_allfixed (n : NumTol) (um : Bool) :
    ∀ (leafs : List VPLeaf) (allfixed : Bool) (acc : List ℚ) (r : Bool × List ℚ),
      (∀ l ∈ leafs, isRelEQ n l.lb l.ub = true) →
      vpLoop n um leafs allfixed acc = some r → r.1 = allfixed := by
  intro leafs
  induction leafs with
  | nil =>
    intro allfixed acc r _ h
    rw [vpLoop] at h
    cases h
    rfl
  | cons l rest ih =>
    intro allfixed acc r hrel h
    rw [vpLoop] at h
    by_cases hlb : isInfinityQ n (-l.lb) = true
    · simp [hlb] at h
    · by_cases hub : isInfinityQ n l.ub = true
      · simp only [Bool.not_eq_true] at hlb
        simp [hlb, hub] at h
      · simp only [Bool.not_eq_true] at hlb hub
        simp only [hlb, hub, Bool.false_eq_true, if_false] at h
        have := ih (allfixed && isRelEQ n l.lb l.ub) _ r
          (fun l2 h2 => hrel l2 (List.mem_cons_of_mem _ h2)) h
        rw [this, hrel l (List.mem_cons_self _ _), Bool.and_true]

/-- C7: the vertex-polyhedral estimation path fails before invoking the
facet routine whenever some leaf has an infinite lower or upper bound or
all leaves are fixed, and the concave detection releases a constructed
expression whose leaf count exceeds the configured maximum. -/
theorem claim7_vertexpolyhedral_failures :
    (∀ (n : NumTol) (leafs : List VPLeaf) (um ov : Bool) (tv : ℚ),
      (∃ l ∈ leafs, isInfinityQ n (-l.lb) = true ∨ isInfinityQ n l.ub = true) →
      estimateVertexPolyhedral n leafs um ov tv = none) ∧
    (∀ (n : NumTol) (leafs : List VPLeaf) (um ov : Bool) (tv : ℚ),
      (∀ l ∈ leafs, isRelEQ n l.lb l.ub = true) →
      estimateVertexPolyhedral n leafs um ov tv = none) ∧
    (∀ (maxdim : Nat) (root : Option NlExpr) (nleafs : Nat),
      maxdim < nleafs → concaveDetectFilter maxdim root nleafs = none) := by
  refine ⟨?_, ?_, ?_⟩
  · intro n leafs um ov tv h
    rw [estimateVertexPolyhedral, vpLoop_infinite n um leafs true [] h]
  · intro n leafs um ov tv h
    rw [estimateVertexPolyhedral]
    cases hv : vpLoop n um leafs true [] with
    | none => rfl
    | some r =>
      have : r.1 = true := vpLoop_allfixed n um leafs true [] r h hv
      simp [this]
  · intro maxdim root nleafs h
    cases root with
    | none => rfl
    | some t => simp [concaveDetectFilter, h]

/-- C7 witness: a leaf with lower bound at minus infinity, a fully fixed
single-leaf box, and a 15-leaf construction against maximum dimension 14
each make the vertex-polyhedral path fail. -/
theorem claim7_vertexpolyhedral_failures_witness :
    estimateVertexPolyhedral numTolStd [⟨-(10^20), 1, 0⟩] false true 0 = none ∧
    estimateVertexPolyhedral numTolStd [⟨1, 1, 1⟩] false true 0 = none ∧
    concaveDetectFilter 14 (some (.auxRef ex5x)) 15 = none := by
  refine ⟨?_, ?_, ?_⟩
  · refine claim7_vertexpolyhedral_failures.1 numTolStd _ false true 0
      ⟨⟨-(10^20), 1, 0⟩, List.mem_singleton.mpr rfl, Or.inl ?_⟩
    norm_num [isInfinityQ, numTolStd]
  · refine claim7_vertexpolyhedral_failures.2.1 numTolStd _ false true 0 ?_
    intro l hl
    rw [List.mem_singleton.mp hl]
    norm_num [isRelEQ, numTolStd]
  · exact claim7_vertexpolyhedral_failures.2.2 14 _ 15 (by norm_num)

/-- C10 counterexample: invoking the concave handler's estimate callback
with overestimation requested while the constructed copy's curvature is
Convex is not rejected: with a bounded unfixed leaf and a succeeding facet
routine the callback reports success and stores a row. -/
theorem claim10_counterexample :
    ex10.overestimate = true ∧ ex10.curvature = .convex ∧
    (nlhdlrEstimateConcave numTolStd ex10).1 =
      { success := true, rowprepStored := true, addedbranchscores := false } := by
  refine ⟨rfl, rfl, ?_⟩
  norm_num [nlhdlrEstimateConcave, ex10, estimateVertexPolyhedral, vpLoop, isInfinityQ,
    isRelEQ, numTolStd]
  simp

/-- C10 (amended): each estimate callback rejects exactly its own wrong
side: the convex handler returns no success, no stored row and no branch
scores when overestimation is requested on a Convex copy or
underestimation on a Concave copy; the concave handler does so when
overestimation is requested on a Concave copy or underestimation on a
Convex copy. -/
theorem claim10_wrong_side (n : NumTol) :
    (∀ inp : ConvexEstIn,
      ((inp.overestimate = true ∧ inp.curvature = .convex) ∨
       (inp.overestimate = false ∧ inp.curvature = .concave)) →
      nlhdlrEstimateConvex n inp =
        ({ success := false, rowprepStored := false, addedbranchscores := false }, none)) ∧
    (∀ inp : ConcaveEstIn,
      ((inp.overestimate = true ∧ inp.curvature = .concave) ∨
       (inp.overestimate = false ∧ inp.curvature = .convex)) →
      nlhdlrEstimateConcave n inp =
        ({ success := false, rowprepStored := false, addedbranchscores := false }, none)) := by
  constructor
  · intro inp h
    rw [nlhdlrEstimateConvex, if_pos]
    rcases h with ⟨h1, h2⟩ | ⟨h1, h2⟩
    · exact Or.inl ⟨h1, h2⟩
    · exact Or.inr ⟨by simp [h1], h2⟩
  · intro inp h
    rw [nlhdlrEstimateConcave, if_pos]
    rcases h with ⟨h1, h2⟩ | ⟨h1, h2⟩
    · exact Or.inl ⟨h1, h2⟩
    · exact Or.inr ⟨by simp [h1], h2⟩

/-- C10 witness: the convex handler's estimate callback invoked with
overestimation on a Convex copy returns failure with no row and no scores. -/
theorem claim10_wrong_side_witness :
    nlhdlrEstimateConvex numTolStd ex10b =
      ({ success := false, rowprepStored := false, addedbranchscores := false }, none) :=
  (claim10_wrong_side numTolStd).1 ex10b (Or.inl ⟨rfl, rfl⟩)

/-- Auxiliary for C1: the ordered rule dispatch returns the first rule that
succeeds, and every rule before it failed. -/
theorem tryList_first_success :
    ∀ (rs : List CurvCheck) (ctx : NlCtx) (b : Bool) (o : OExpr) (c : ExprCurv)
      (i : Nat) (g : GrowPlan),
      tryList rs ctx b o c = some (i, g) →
      (∃ r, rs[i]? = some r ∧ r ctx b o c = some g) ∧
      (∀ j, j < i → ∀ r, rs[j]? = some r → r ctx b o c = none) := by
  intro rs
  induction rs with
  | nil => intro ctx b o c i g h; rw [tryList] at h; cases h
  | cons r rest ih =>
    intro ctx b o c i g h
    rw [tryList] at h
    cases hr : r ctx b o c with
    | some g0 =>
      rw [hr] at h
      cases h
      refine ⟨⟨r, by simp, hr⟩, ?_⟩
      intro j hj
      exact absurd hj (Nat.not_lt_zero j)
    | none =>
      rw [hr] at h
      cases hrec : tryList rest ctx b o c with
      | none => rw [hrec] at h; cases h
      | some p =>
        rw [hrec] at h
        cases h
        obtain ⟨⟨r2, hget, hr2⟩, hbefore⟩ := ih ctx b o c p.1 p.2 (by rw [hrec])
        refine ⟨⟨r2, by simpa using hget, hr2⟩, ?_⟩
        intro j hj r3 hget3
        cases j with
        | zero =>
          simp only [List.getElem?_cons_zero, Option.some.injEq] at hget3
          rw [← hget3]; exact hr
        | succ j2 =>
          simp only [List.getElem?_cons_succ] at hget3
          exact hbefore j2 (by omega) r3 hget3

/-- C1: CURVCHECKS is the fixed ordered rule list product-composition,
signomial, quadratic, generic-exprhdlr-callback with the generic callback
last; the dispatch used on every popped node with known required curvature
returns the first successful rule's effect with all earlier rules having
failed; and on such a node the loop body wires exactly that effect's
children into the popped node. -/
theorem claim1_rule_order :
    (CURVCHECKS = [curvCheckProductComposite, curvCheckSignomial, curvCheckQuadratic,
        curvCheckExprhdlr] ∧ NCURVCHECKS = 4 ∧
      CURVCHECKS[NCURVCHECKS - 1]? = some curvCheckExprhdlr) ∧
    (∀ (ctx : NlCtx) (b : Bool) (o : OExpr) (c : ExprCurv) (i : Nat) (g : GrowPlan),
      tryCurvChecks ctx b o c = some (i, g) →
      (∃ r, CURVCHECKS[i]? = some r ∧ r ctx b o c = some g) ∧
      (∀ j, j < i → ∀ r, CURVCHECKS[j]? = some r → r ctx b o c = none)) ∧
    (∀ (fuel : Nat) (ctx : NlCtx) (isrootexpr : Bool) (o : OExpr) (c : ExprCurv)
      (i : Nat) (g : GrowPlan),
      ¬(ctx.dat.isnlhdlrconvex = true ∧ ¬ctx.hasBwdiff o.hd = true) →
      ¬(¬ctx.dat.isnlhdlrconvex = true ∧ exprIsMultivarLinear o = true) →
      c ≠ .unknown →
      tryCurvChecks ctx isrootexpr o c = some (i, g) →
      constructNode (fuel + 1) ctx isrootexpr o c =
        .copyOf o c (applyGrowPlan fuel ctx g)) := by
  refine ⟨⟨rfl, rfl, rfl⟩, ?_, ?_⟩
  · intro ctx b o c i g h
    exact tryList_first_success CURVCHECKS ctx b o c i g h
  · intro fuel ctx isrootexpr o c i g h1 h2 h3 h4
    rw [constructNode, if_neg h1, if_neg h2, if_pos h3, h4]
    cases g <;> rfl

/-- C1 witness: on the product f(2x) * x with default convex configuration,
the dispatch succeeds at index 0 (product-composition) and the loop body
wires that rule's effect into the node. -/
theorem claim1_rule_order_witness :
    tryCurvChecks ctxConvexDefault false ex2prod .convex =
      some (0, .pcomp 0 ex2f (some ex2ch) ex2x .convex) ∧
    (∃ r, CURVCHECKS[0]? = some r ∧
      r ctxConvexDefault false ex2prod .convex =
        some (.pcomp 0 ex2f (some ex2ch) ex2x .convex)) ∧
    constructNode 3 ctxConvexDefault false ex2prod .convex =
      .copyOf ex2prod .convex
        (applyGrowPlan 2 ctxConvexDefault (.pcomp 0 ex2f (some ex2ch) ex2x .convex)) := by
  refine ⟨rfl, ?_, ?_⟩
  · exact (claim1_rule_order.2.1 ctxConvexDefault false ex2prod .convex 0 _ rfl).1
  · exact claim1_rule_order.2.2 2 ctxConvexDefault false ex2prod .convex 0 _
      (by simp [ctxConvexDefault]) (by simp [ctxConvexDefault, nlhdlrDataConvexDefault])
      (by simp) rfl

/-- Auxiliary for C2: shape facts established by a successful fhAt match. -/
theorem fhAt_shape (o : OExpr) (fidx : Nat) (fh : FHData)
    (hfh : fhAt o fidx = some fh) :
    fh.fidx = fidx ∧ o.children[fidx]? = some fh.f ∧ fh.f.children = [fh.ch] ∧
    o.children[1 - fidx]? ≠ none ∧
    (fh.unwrapped = true → fh.ch.hd = .esum ∧ fh.ch.children.length = 1 ∧
      fh.h = fh.ch.children.getD 0 default ∧ fh.c = fh.ch.dat.sumCoefs.getD 0 1) ∧
    (fh.unwrapped = false → fh.h = fh.ch ∧ fh.c = 1) := by
  rw [fhAt] at hfh
  split at hfh
  next f other heq1 heq2 =>
    split at hfh
    next ch hch =>
      split at hfh
      next hcond =>
        dsimp only at hfh
        split at hfh
        next hoid =>
          cases hfh
          refine ⟨rfl, by rw [heq1], by rw [hch], by rw [heq2]; simp, ?_, ?_⟩
          · intro _
            exact ⟨hcond.1, hcond.2, rfl, rfl⟩
          · intro ht
            exact Bool.noConfusion ht
        next hoid => cases hfh
      next hcond =>
        split at hfh
        next hoid =>
          cases hfh
          refine ⟨rfl, by rw [heq1], by rw [hch], by rw [heq2]; simp, ?_, ?_⟩
          · intro ht
            exact Bool.noConfusion ht
          · intro _
            exact ⟨rfl, rfl⟩
        next hoid => cases hfh
    next hne => cases hfh
  next hne => cases hfh

/-- Auxiliary for C2: findFH tries fidx = 0 first. -/
theorem findFH_cases (o : OExpr) (fh : FHData) (hfh : findFH o = some fh) :
    fhAt o 0 = some fh ∨ (fhAt o 0 = none ∧ fhAt o 1 = some fh) := by
  rw [findFH] at hfh
  cases h0 : fhAt o 0 with
  | some r => rw [h0] at hfh; cases hfh; exact Or.inl rfl
  | none => rw [h0] at hfh; exact Or.inr ⟨rfl, hfh⟩

/-- Auxiliary for C2: what a successful convex-side decision requires and
yields. -/
theorem pcompHCurv_convex (fh : FHData) (hcurv : ExprCurv)
    (h : pcompHCurv fh .convex = some hcurv) :
    ((0 < fh.c → fh.f.dat.mono0 = .inc) ∧ (fh.c < 0 → fh.f.dat.mono0 = .dec)) ∧
    ((XReal.fin 0).leB fh.h.dat.activity.inf = true →
      (fh.f.dat.curvCb .convex).isSome = true ∧
      hcurv = (if fh.f.dat.activity.inf.ltB (.fin 0) then .linear else .convex)) ∧
    ((XReal.fin 0).leB fh.h.dat.activity.inf = false →
      (fh.f.dat.curvCb .concave).isSome = true ∧
      hcurv = (if (XReal.fin 0).ltB fh.f.dat.activity.sup then .linear else .concave)) := by
  rw [pcompHCurv] at h
  rw [if_pos rfl] at h
  by_cases hsf : (0 < fh.c ∧ fh.f.dat.mono0 ≠ .inc) ∨ (fh.c < 0 ∧ fh.f.dat.mono0 ≠ .dec)
  · rw [if_pos hsf] at h; cases h
  · rw [if_neg hsf] at h
    push_neg at hsf
    refine ⟨⟨hsf.1, hsf.2⟩, ?_, ?_⟩
    · intro hge
      rw [if_pos hge] at h
      cases hcb : (fh.f.dat.curvCb .convex).isSome with
      | false => rw [hcb] at h; simp at h
      | true =>
        rw [hcb, if_pos rfl] at h
        cases h
        exact ⟨rfl, rfl⟩
    · intro hge
      rw [hge] at h
      simp only [Bool.false_eq_true, if_false] at h
      cases hcb : (fh.f.dat.curvCb .concave).isSome with
      | false => rw [hcb] at h; simp at h
      | true =>
        rw [hcb, if_pos rfl] at h
        cases h
        exact ⟨rfl, rfl⟩

/-- Auxiliary for C2: what a successful concave-side decision requires and
yields (the mirror with swapped sign conditions). -/
theorem pcompHCurv_concave (fh : FHData) (hcurv : ExprCurv)
    (h : pcompHCurv fh .concave = some hcurv) :
    ((0 < fh.c → fh.f.dat.mono0 = .dec) ∧ (fh.c < 0 → fh.f.dat.mono0 = .inc)) ∧
    (fh.h.dat.activity.sup.leB (.fin 0) = true →
      (fh.f.dat.curvCb .convex).isSome = true ∧
      hcurv = (if fh.f.dat.activity.inf.ltB (.fin 0) then .linear else .concave)) ∧
    (fh.h.dat.activity.sup.leB (.fin 0) = false →
      (fh.f.dat.curvCb .concave).isSome = true ∧
      hcurv = (if (XReal.fin 0).ltB fh.f.dat.activity.sup then .linear else .convex)) := by
  rw [pcompHCurv] at h
  rw [if_neg (by simp : ¬(ExprCurv.concave = ExprCurv.convex))] at h
  by_cases hsf : (0 < fh.c ∧ fh.f.dat.mono0 ≠ .dec) ∨ (fh.c < 0 ∧ fh.f.dat.mono0 ≠ .inc)
  · rw [if_pos hsf] at h; cases h
  · rw [if_neg hsf] at h
    push_neg at hsf
    refine ⟨⟨hsf.1, hsf.2⟩, ?_, ?_⟩
    · intro hge
      rw [if_pos hge] at h
      cases hcb : (fh.f.dat.curvCb .convex).isSome with
      | false => rw [hcb] at h; simp at h
      | true =>
        rw [hcb, if_pos rfl] at h
        cases h
        exact ⟨rfl, rfl⟩
    · intro hge
      rw [hge] at h
      simp only [Bool.false_eq_true, if_false] at h
      cases hcb : (fh.f.dat.curvCb .concave).isSome with
      | false => rw [hcb] at h; simp at h
      | true =>
        rw [hcb, if_pos rfl] at h
        cases h
        exact ⟨rfl, rfl⟩

/-- Auxiliary for C2: inversion of a successful product-composition rule. -/
theorem curvCheckPC_inv (ctx : NlCtx) (b : Bool) (o : OExpr) (curv : ExprCurv)
    (g : GrowPlan) (hs : curvCheckProductComposite ctx b o curv = some g) :
    ctx.dat.cvxprodcomp = true ∧ o.hd = .eprod ∧ o.children.length = 2 ∧
    ∃ fh, findFH o = some fh ∧
      ¬(fh.h.dat.activity.inf.ltB (.fin 0) = true ∧
        (XReal.fin 0).ltB fh.h.dat.activity.sup = true) ∧
      fh.f.dat.mono0 ≠ .unknown ∧
      ∃ hcurv, pcompHCurv fh (exprcurvMultiply o.dat.prodCoef curv) = some hcurv ∧
        g = .pcomp fh.fidx fh.f (if fh.unwrapped then some fh.ch else none) fh.h hcurv := by
  rw [curvCheckProductComposite] at hs
  dsimp only at hs
  by_cases h1 : ctx.dat.cvxprodcomp = true
  swap
  · rw [if_pos (by simpa using h1)] at hs; cases hs
  rw [if_neg (by simpa using h1)] at hs
  by_cases h2 : o.hd = .eprod
  swap
  · rw [if_pos h2] at hs; cases hs
  rw [if_neg (by simpa using h2)] at hs
  by_cases h3 : o.children.length = 2
  swap
  · rw [if_pos h3] at hs; cases hs
  rw [if_neg (by simpa using h3)] at hs
  refine ⟨h1, h2, h3, ?_⟩
  cases hfh : findFH o with
  | none => rw [hfh] at hs; cases hs
  | some fh =>
    rw [hfh] at hs
    dsimp only at hs
    by_cases hmix : fh.h.dat.activity.inf.ltB (.fin 0) = true ∧
        (XReal.fin 0).ltB fh.h.dat.activity.sup = true
    · rw [if_pos hmix] at hs; cases hs
    rw [if_neg hmix] at hs
    by_cases hmono : fh.f.dat.mono0 = .unknown
    · rw [if_pos hmono] at hs; cases hs
    rw [if_neg hmono] at hs
    cases hpc : pcompHCurv fh (exprcurvMultiply o.dat.prodCoef curv) with
    | none => rw [hpc] at hs; cases hs
    | some hcurv =>
      rw [hpc] at hs
      cases hs
      exact ⟨fh, rfl, hmix, hmono, hcurv, hpc, rfl⟩

/-- C2: the product-composition rule accepts only a 2-ary product matching
the f(c*h+d)*h shape; it declines whenever h's activity has mixed sign or
f's monotonicity is unknown; for desired curvature convex (after
multiplying by the product coefficient's sign) it requires c > 0 to imply
f increasing and c < 0 to imply f decreasing, and for h ≥ 0 it requires f
to be convex-capable and assigns the h-child Convex when f's activity is
nonnegative and Linear when f can be negative; the concave case mirrors
with swapped sign conditions. -/
theorem claim2_product_composite :
    ∀ (ctx : NlCtx) (b : Bool) (o : OExpr) (curv : ExprCurv),
      (∀ g, curvCheckProductComposite ctx b o curv = some g →
        o.hd = .eprod ∧ o.children.length = 2 ∧
        ∃ fh, findFH o = some fh ∧ fh.f.children = [fh.ch] ∧
          (fh.unwrapped = false → fh.h = fh.ch) ∧
          (fh.unwrapped = true → fh.ch.hd = .esum ∧ fh.ch.children.length = 1)) ∧
      (∀ fh, findFH o = some fh →
        ((fh.h.dat.activity.inf.ltB (.fin 0) = true ∧
          (XReal.fin 0).ltB fh.h.dat.activity.sup = true) ∨
         fh.f.dat.mono0 = .unknown) →
        curvCheckProductComposite ctx b o curv = none) ∧
      (∀ fh g, curvCheckProductComposite ctx b o curv = some g →
        findFH o = some fh →
        exprcurvMultiply o.dat.prodCoef curv = .convex →
        ((0 < fh.c → fh.f.dat.mono0 = .inc) ∧ (fh.c < 0 → fh.f.dat.mono0 = .dec)) ∧
        ((XReal.fin 0).leB fh.h.dat.activity.inf = true →
          (fh.f.dat.curvCb .convex).isSome = true ∧
          g = .pcomp fh.fidx fh.f (if fh.unwrapped then some fh.ch else none) fh.h
            (if fh.f.dat.activity.inf.ltB (.fin 0) then .linear else .convex))) ∧
      (∀ fh g, curvCheckProductComposite ctx b o curv = some g →
        findFH o = some fh →
        exprcurvMultiply o.dat.prodCoef curv = .concave →
        ((0 < fh.c → fh.f.dat.mono0 = .dec) ∧ (fh.c < 0 → fh.f.dat.mono0 = .inc)) ∧
        (fh.h.dat.activity.sup.leB (.fin 0) = true →
          (fh.f.dat.curvCb .convex).isSome = true ∧
          g = .pcomp fh.fidx fh.f (if fh.unwrapped then some fh.ch else none) fh.h
            (if fh.f.dat.activity.inf.ltB (.fin 0) then .linear else .concave))) := by
  intro ctx b o curv
  refine ⟨?_, ?_, ?_, ?_⟩
  · intro g hs
    obtain ⟨_, h2, h3, fh, hfh, _⟩ := curvCheckPC_inv ctx b o curv g hs
    have hsh : fhAt o 0 = some fh ∨ (fhAt o 0 = none ∧ fhAt o 1 = some fh) :=
      findFH_cases o fh hfh
    have hneed : fh.f.children = [fh.ch] ∧ (fh.unwrapped = false → fh.h = fh.ch) ∧
        (fh.unwrapped = true → fh.ch.hd = .esum ∧ fh.ch.children.length = 1) := by
      rcases hsh with h | h
      · have hs0 := fhAt_shape o 0 fh h
        exact ⟨hs0.2.2.1, fun hu => (hs0.2.2.2.2.2 hu).1,
          fun hu => ⟨(hs0.2.2.2.2.1 hu).1, (hs0.2.2.2.2.1 hu).2.1⟩⟩
      · have hs1 := fhAt_shape o 1 fh h.2
        exact ⟨hs1.2.2.1, fun hu => (hs1.2.2.2.2.2 hu).1,
          fun hu => ⟨(hs1.2.2.2.2.1 hu).1, (hs1.2.2.2.2.1 hu).2.1⟩⟩
    exact ⟨h2, h3, fh, hfh, hneed.1, hneed.2.1, hneed.2.2⟩
  · intro fh hfh hbad
    rw [curvCheckProductComposite]
    dsimp only
    by_cases h1 : ¬ctx.dat.cvxprodcomp = true
    · rw [if_pos h1]
    rw [if_neg h1]
    by_cases h2 : o.hd ≠ .eprod
    · rw [if_pos h2]
    rw [if_neg h2]
    by_cases h3 : o.children.length ≠ 2
    · rw [if_pos h3]
    rw [if_neg h3]
    rw [hfh]
    dsimp only
    by_cases hmix : fh.h.dat.activity.inf.ltB (.fin 0) = true ∧
        (XReal.fin 0).ltB fh.h.dat.activity.sup = true
    · rw [if_pos hmix]
    rw [if_neg hmix]
    rcases hbad with hb | hb
    · exact absurd hb hmix
    · rw [if_pos hb]
  · intro fh g hs hfh hmul
    obtain ⟨_, _, _, fh2, hfh2, _, _, hcurv, hpc, hg⟩ := curvCheckPC_inv ctx b o curv g hs
    rw [hfh] at hfh2
    cases hfh2
    rw [hmul] at hpc
    obtain ⟨hsign, hge, _⟩ := pcompHCurv_convex fh hcurv hpc
    refine ⟨hsign, fun hh => ?_⟩
    obtain ⟨hcb, hcv⟩ := hge hh
    exact ⟨hcb, by rw [hg, hcv]⟩
  · intro fh g hs hfh hmul
    obtain ⟨_, _, _, fh2, hfh2, _, _, hcurv, hpc, hg⟩ := curvCheckPC_inv ctx b o curv g hs
    rw [hfh] at hfh2
    cases hfh2
    rw [hmul] at hpc
    obtain ⟨hsign, hge, _⟩ := pcompHCurv_concave fh hcurv hpc
    refine ⟨hsign, fun hh => ?_⟩
    obtain ⟨hcb, hcv⟩ := hge hh
    exact ⟨hcb, by rw [hg, hcv]⟩

/-- C2 witness: on the concrete product f(2x) * x (f increasing,
convex-capable, nonnegative; x in [0, 5]) the rule succeeds, the shape
facts hold, and the h-child is assigned required curvature Convex. -/
theorem claim2_product_composite_witness :
    curvCheckProductComposite ctxConvexDefault false ex2prod .convex =
      some (.pcomp 0 ex2f (some ex2ch) ex2x .convex) ∧
    (ex2prod.hd = .eprod ∧ ex2prod.children.length = 2 ∧
      ∃ fh, findFH ex2prod = some fh ∧ fh.f.children = [fh.ch] ∧
        (fh.unwrapped = false → fh.h = fh.ch) ∧
        (fh.unwrapped = true → fh.ch.hd = .esum ∧ fh.ch.children.length = 1)) ∧
    ((ex2f.dat.curvCb .convex).isSome = true ∧
      GrowPlan.pcomp 0 ex2f (some ex2ch) ex2x .convex =
        .pcomp 0 ex2f (some ex2ch) ex2x
          (if ex2f.dat.activity.inf.ltB (.fin 0) then .linear else .convex)) := by
  refine ⟨rfl, ?_, ?_⟩
  · exact (claim2_product_composite ctxConvexDefault false ex2prod .convex).1 _ rfl
  · have h := (claim2_product_composite ctxConvexDefault false ex2prod .convex).2.2.1
      ⟨0, ex2f, 2, ex2ch, ex2x, true⟩ (.pcomp 0 ex2f (some ex2ch) ex2x .convex)
      rfl rfl rfl
    have h2 := h.2 rfl
    exact ⟨h2.1, h2.2⟩

/-- C3: the quadratic rule accepts only a sum recognized as quadratic with
at least two quadratic expressions whose computed curvature equals the
desired curvature exactly; on acceptance each square term and each
bilinear term is consumed whole (materialized directly, with its arguments
grown as Linear-required children and pushed), and every other summand is
pushed with required curvature Linear. -/
theorem claim3_quadratic_rule :
    ∀ (ctx : NlCtx) (b : Bool) (o : OExpr) (curv : ExprCurv) (g : GrowPlan),
      curvCheckQuadratic ctx b o curv = some g →
      o.hd = .esum ∧ curv ≠ .linear ∧
      (∃ qd, o.dat.quad = some qd ∧ 2 ≤ qd.nquadexprs ∧ qd.presentcurv = curv) ∧
      g = .items (o.children.map fun child =>
        if child.hd = .epow ∧ child.dat.powExp = 2 then
          PlanItem.consumed child .unknown [.linear, .linear]
        else if child.hd = .eprod ∧ child.children.length = 2 then
          PlanItem.consumed child .unknown [.linear, .linear]
        else PlanItem.expand child .linear) ∧
      (∀ fuel, applyGrowPlan fuel ctx g = o.children.map fun child =>
        if child.hd = .epow ∧ child.dat.powExp = 2 then
          NlExpr.copyOf child .unknown ((growPairs child [.linear, .linear]).map fun p =>
            constructNode fuel ctx false p.1 p.2)
        else if child.hd = .eprod ∧ child.children.length = 2 then
          NlExpr.copyOf child .unknown ((growPairs child [.linear, .linear]).map fun p =>
            constructNode fuel ctx false p.1 p.2)
        else constructNode fuel ctx false child .linear) := by
  intro ctx b o curv g hs
  rw [curvCheckQuadratic] at hs
  by_cases h1 : ¬ctx.dat.cvxquadratic = true
  · rw [if_pos h1] at hs; cases hs
  rw [if_neg h1] at hs
  by_cases h2 : o.hd ≠ .esum
  · rw [if_pos h2] at hs; cases hs
  rw [if_neg h2] at hs
  by_cases h3 : curv = .linear
  · rw [if_pos h3] at hs; cases hs
  rw [if_neg h3] at hs
  cases hq : o.dat.quad with
  | none => rw [hq] at hs; cases hs
  | some quaddata =>
    rw [hq] at hs
    dsimp only at hs
    by_cases h4 : quaddata.nquadexprs ≤ 1
    · rw [if_pos h4] at hs; cases hs
    rw [if_neg h4] at hs
    by_cases h5 : b = true ∧ ¬ctx.dat.detectsum = true ∧ quaddata.nbilinexprs = 0
    · rw [if_pos h5] at hs; cases hs
    rw [if_neg h5] at hs
    by_cases h6 : quaddata.presentcurv ≠ curv
    · rw [if_pos h6] at hs; cases hs
    rw [if_neg h6] at hs
    cases hs
    push_neg at h2 h6
    refine ⟨h2, h3, ⟨quaddata, rfl, by omega, h6⟩, rfl, ?_⟩
    intro fuel
    simp only [applyGrowPlan, List.map_map]
    apply List.map_congr_left
    intro child _
    by_cases hc1 : child.hd = .epow ∧ child.dat.powExp = 2
    · simp [hc1]
    · by_cases hc2 : child.hd = .eprod ∧ child.children.length = 2
      · simp [hc1, hc2]
      · simp [hc1, hc2]

/-- C3 witness: the sum x^2 + x*y + z recognized as a convex quadratic with
two quadratic expressions and one bilinear term is accepted; the square and
bilinear terms are consumed whole with Linear kid curvatures and z is
pushed as Linear. -/
theorem claim3_quadratic_rule_witness :
    curvCheckQuadratic ctxConvexDefault true ex3sum .convex =
      some (.items [.consumed ex3sq .unknown [.linear, .linear],
                    .consumed ex3bil .unknown [.linear, .linear],
                    .expand ex3z .linear]) ∧
    (ex3sum.hd = .esum ∧ ExprCurv.convex ≠ .linear ∧
      ∃ qd, ex3sum.dat.quad = some qd ∧ 2 ≤ qd.nquadexprs ∧ qd.presentcurv = .convex) := by
  refine ⟨rfl, ?_⟩
  have h := claim3_quadratic_rule ctxConvexDefault true ex3sum .convex _ rfl
  exact ⟨h.1, h.2.1, h.2.2.1⟩

/-- Auxiliary for C8 and C9: the collector maps child lists one-to-one. -/
theorem collectKids_len : ∀ (cs : List NlExpr) (st : CLState),
    (collectKids cs st).1.length = cs.length := by
  intro cs
  induction cs with
  | nil => intro st; rw [collectKids]
  | cons ch rest ih =>
    intro st
    rw [collectKids]
    dsimp only
    rw [List.length_cons, List.length_cons, ih]

/-- Auxiliary for C8: a single leaf-handling step changes usingaux exactly
when the leaf is a childless copy of an original with children. -/
theorem handleLeaf_usingaux (ch : NlExpr) (st : CLState) (h : ch.childCount = 0) :
    (handleLeaf ch st).2.usingaux = (st.usingaux || hasAuxLeafB ch) := by
  cases ch with
  | auxRef o => rw [handleLeaf, hasAuxLeafB, Bool.or_false]
  | copyOf o c cs =>
    cases cs with
    | cons k ks => simp [NlExpr.childCount, NlExpr.childrenL] at h
    | nil =>
      rw [handleLeaf, hasAuxLeafB]
      by_cases ho : o.children.length > 0
      · rw [if_pos ho]
        simp [ho]
      · rw [if_neg ho]
        have : decide (o.children.length > 0) = false := by simpa using ho
        rw [this, Bool.or_false]
        by_cases hv : isVarO o = true
        · rw [if_pos hv]
          rw [insertIfAbsent]
          split <;> rfl
        · rw [if_neg hv]

/-- Auxiliary for C8: usingaux after collection is its previous value or-ed
with the presence of a childless copy whose original has children. -/
theorem collectKids_usingaux : ∀ (n : Nat) (cs : List NlExpr) (st : CLState),
    sizeOf cs ≤ n →
    (collectKids cs st).2.usingaux = (st.usingaux || hasAuxLeafL cs) := by
  intro n
  induction n with
  | zero =>
    intro cs st h
    cases cs with
    | nil => rw [collectKids, hasAuxLeafL, Bool.or_false]
    | cons ch rest => simp at h
  | succ n ih =>
    intro cs st hsz
    cases cs with
    | nil => rw [collectKids, hasAuxLeafL, Bool.or_false]
    | cons ch rest =>
      rw [collectKids]
      dsimp only
      have hrest : sizeOf rest ≤ n := by simp at hsz; omega
      rw [hasAuxLeafL]
      by_cases hch : ch.childCount = 0
      · rw [if_pos hch, ih rest _ hrest, handleLeaf_usingaux ch st hch, Bool.or_assoc]
      · rw [if_neg hch]
        cases ch with
        | auxRef o => simp [NlExpr.childCount, NlExpr.childrenL] at hch
        | copyOf o c cs2 =>
          cases cs2 with
          | nil => simp [NlExpr.childCount, NlExpr.childrenL] at hch
          | cons k ks =>
            rw [collectNode]
            dsimp only
            have hks : sizeOf (k :: ks) ≤ n := by simp at hsz ⊢; omega
            rw [ih rest _ hrest, ih (k :: ks) st hks, hasAuxLeafB, Bool.or_assoc]

/-- Auxiliary for C8: inserting an absent key appends the next free index,
so the handed-out indices remain exactly 0..nindices-1. -/
theorem insertIfAbsent_range (k : LeafKey) (st : CLState)
    (h : st.table.map Prod.snd = List.range st.nindices) :
    (insertIfAbsent k st).table.map Prod.snd =
      List.range (insertIfAbsent k st).nindices := by
  rw [insertIfAbsent]
  split
  · exact h
  · dsimp only
    rw [List.map_append, h, List.range_succ]
    rfl

/-- Auxiliary for C8: one leaf-handling step preserves the index-range
invariant of the table. -/
theorem handleLeaf_range (ch : NlExpr) (st : CLState)
    (h : st.table.map Prod.snd = List.range st.nindices) :
    (handleLeaf ch st).2.table.map Prod.snd =
      List.range (handleLeaf ch st).2.nindices := by
  cases ch with
  | auxRef o => exact h
  | copyOf o c cs =>
    rw [handleLeaf]
    by_cases ho : o.children.length > 0
    · rw [if_pos ho]
      exact insertIfAbsent_range _ st h
    · rw [if_neg ho]
      by_cases hv : isVarO o = true
      · rw [if_pos hv]
        exact insertIfAbsent_range _ st h
      · rw [if_neg hv]
        exact h

/-- Auxiliary for C8: collection preserves the index-range invariant. -/
theorem collectKids_range : ∀ (n : Nat) (cs : List NlExpr) (st : CLState),
    sizeOf cs ≤ n →
    st.table.map Prod.snd = List.range st.nindices →
    (collectKids cs st).2.table.map Prod.snd =
      List.range (collectKids cs st).2.nindices := by
  intro n
  induction n with
  | zero =>
    intro cs st h hr
    cases cs with
    | nil => rw [collectKids]; exact hr
    | cons ch rest => simp at h
  | succ n ih =>
    intro cs st hsz hr
    cases cs with
    | nil => rw [collectKids]; exact hr
    | cons ch rest =>
      rw [collectKids]
      dsimp only
      have hrest : sizeOf rest ≤ n := by simp at hsz; omega
      by_cases hch : ch.childCount = 0
      · rw [if_pos hch]
        exact ih rest _ hrest (handleLeaf_range ch st hr)
      · rw [if_neg hch]
        cases ch with
        | auxRef o => simp [NlExpr.childCount, NlExpr.childrenL] at hch
        | copyOf o c cs2 =>
          cases cs2 with
          | nil => simp [NlExpr.childCount, NlExpr.childrenL] at hch
          | cons k ks =>
            rw [collectNode]
            dsimp only
            have hks : sizeOf (k :: ks) ≤ n := by simp at hsz ⊢; omega
            exact ih rest _ hrest (ih (k :: ks) st hks hr)

/-- Auxiliary for C8: one leaf-handling step leaves no childless copy with
original children behind. -/
theorem handleLeaf_noaux (ch : NlExpr) (st : CLState) (h : ch.childCount = 0) :
    hasAuxLeafB (handleLeaf ch st).1 = false := by
  cases ch with
  | auxRef o => rfl
  | copyOf o c cs =>
    cases cs with
    | cons k ks => simp [NlExpr.childCount, NlExpr.childrenL] at h
    | nil =>
      rw [handleLeaf]
      by_cases ho : o.children.length > 0
      · rw [if_pos ho]; rfl
      · rw [if_neg ho]
        have h0 : decide (o.children.length > 0) = false := by simpa using ho
        by_cases hv : isVarO o = true
        · rw [if_pos hv]
          dsimp only
          rw [hasAuxLeafB, h0]
        · rw [if_neg hv]
          dsimp only
          rw [hasAuxLeafB, h0]

/-- Auxiliary for C8: after collection, no to-be-visited child is a
childless copy whose original has children (every such leaf was replaced). -/
theorem collectKids_noaux : ∀ (n : Nat) (cs : List NlExpr) (st : CLState),
    sizeOf cs ≤ n → hasAuxLeafL (collectKids cs st).1 = false := by
  intro n
  induction n with
  | zero =>
    intro cs st h
    cases cs with
    | nil => rw [collectKids]; rfl
    | cons ch rest => simp at h
  | succ n ih =>
    intro cs st hsz
    cases cs with
    | nil => rw [collectKids]; rfl
    | cons ch rest =>
      rw [collectKids]
      dsimp only
      have hrest : sizeOf rest ≤ n := by simp at hsz; omega
      rw [hasAuxLeafL]
      by_cases hch : ch.childCount = 0
      · rw [if_pos hch, handleLeaf_noaux ch st hch, ih rest _ hrest, Bool.or_false]
      · rw [if_neg hch]
        cases ch with
        | auxRef o => simp [NlExpr.childCount, NlExpr.childrenL] at hch
        | copyOf o c cs2 =>
          cases cs2 with
          | nil => simp [NlExpr.childCount, NlExpr.childrenL] at hch
          | cons k ks =>
            rw [collectNode]
            dsimp only
            have hks : sizeOf (k :: ks) ≤ n := by simp at hsz ⊢; omega
            rw [ih rest _ hrest, Bool.or_false]
            have hlen : (collectKids (k :: ks) st).1.length = (k :: ks).length :=
              collectKids_len (k :: ks) st
            cases hres : (collectKids (k :: ks) st).1 with
            | nil => rw [hres] at hlen; simp at hlen
            | cons k2 ks2 =>
              rw [hasAuxLeafB, ← hres, ih (k :: ks) st hks]

/-- C8: the leaf collector replaces every childless copy whose original has
children by a fresh variable expression for the original's auxiliary
variable and registers it with the next free index if not already present;
childless copies that are original variables are registered directly
without an auxiliary variable; value expressions are never registered; the
indices handed out are exactly 0..nleafs-1; and the curvature is recorded
back onto the original expression iff no auxiliary variable was
introduced. -/
theorem claim8_collect_leafs :
    (∀ (o : OExpr) (c : ExprCurv) (st : CLState), o.children.length > 0 →
      handleLeaf (.copyOf o c []) st =
        (.auxRef o, { insertIfAbsent (.auxKey o.oid) st with usingaux := true })) ∧
    (∀ (o : OExpr) (c : ExprCurv) (st : CLState), o.children.length = 0 → isVarO o = true →
      handleLeaf (.copyOf o c []) st = (.copyOf o c [], insertIfAbsent (.varKey o.oid) st)) ∧
    (∀ (o : OExpr) (c : ExprCurv) (st : CLState), o.children.length = 0 → isVarO o = false →
      handleLeaf (.copyOf o c []) st = (.copyOf o c [], st)) ∧
    (∀ (k : LeafKey) (st : CLState),
      (lkMem k st.table = false →
        (insertIfAbsent k st).table = st.table ++ [(k, st.nindices)] ∧
        (insertIfAbsent k st).nindices = st.nindices + 1) ∧
      (lkMem k st.table = true → insertIfAbsent k st = st)) ∧
    (∀ (cs : List NlExpr) (st : CLState),
      st.table.map Prod.snd = List.range st.nindices →
      (collectKids cs st).2.table.map Prod.snd =
        List.range (collectKids cs st).2.nindices) ∧
    (∀ (cs : List NlExpr) (st : CLState), hasAuxLeafL (collectKids cs st).1 = false) ∧
    (∀ root : NlExpr,
      (createNlhdlrExprData root).usingaux = hasAuxLeaf root ∧
      ((createNlhdlrExprData root).curvRecorded.isSome = true ↔
        (createNlhdlrExprData root).usingaux = false)) := by
  refine ⟨?_, ?_, ?_, ?_, ?_, ?_, ?_⟩
  · intro o c st ho
    rw [handleLeaf, if_pos ho]
  · intro o c st ho hv
    rw [handleLeaf, if_neg (by omega : ¬o.children.length > 0), if_pos hv]
  · intro o c st ho hv
    rw [handleLeaf, if_neg (by omega : ¬o.children.length > 0), if_neg (by simp [hv])]
  · intro k st
    constructor
    · intro hm
      rw [insertIfAbsent, if_neg (by simp [hm])]
      exact ⟨rfl, rfl⟩
    · intro hm
      rw [insertIfAbsent, if_pos hm]
  · intro cs st h
    exact collectKids_range (sizeOf cs) cs st le_rfl h
  · intro cs st
    exact collectKids_noaux (sizeOf cs) cs st le_rfl
  · intro root
    have hua : (createNlhdlrExprData root).usingaux = hasAuxLeaf root := by
      rw [createNlhdlrExprData]
      dsimp only
      cases root with
      | auxRef o => rfl
      | copyOf o c cs =>
        rw [collectLeafs, collectNode]
        dsimp only
        rw [hasAuxLeaf]
        have := collectKids_usingaux (sizeOf cs) cs ⟨[], 0, false⟩ le_rfl
        rw [this, Bool.false_or]
    refine ⟨hua, ?_⟩
    rw [createNlhdlrExprData]
    dsimp only
    by_cases hu : (collectLeafs root ⟨[], 0, false⟩).2.usingaux = true
    · rw [if_pos hu]
      simp [hu]
    · rw [if_neg hu]
      simp only [Bool.not_eq_true] at hu
      simp [hu]

/-- C8 witness: collecting the copy of x + f(x) in which f(x) stayed
childless registers the variable x at index 0, replaces the f(x) leaf by
an aux-variable reference registered at index 1, reports usingaux, and
does not record the curvature back. -/
theorem claim8_collect_leafs_witness :
    handleLeaf (.copyOf ex8inner .convex []) ⟨[(.varKey 31, 0)], 1, false⟩ =
      (.auxRef ex8inner,
        { insertIfAbsent (.auxKey 41) ⟨[(.varKey 31, 0)], 1, false⟩ with usingaux := true }) ∧
    handleLeaf (.copyOf ex5x .convex []) ⟨[], 0, false⟩ =
      (.copyOf ex5x .convex [], insertIfAbsent (.varKey 31) ⟨[], 0, false⟩) ∧
    (insertIfAbsent (.auxKey 41) ⟨[(.varKey 31, 0)], 1, false⟩).table =
      [(.varKey 31, 0)] ++ [(.auxKey 41, 1)] ∧
    (collectKids ex8tree.childrenL ⟨[], 0, false⟩).2.table.map Prod.snd =
      List.range (collectKids ex8tree.childrenL ⟨[], 0, false⟩).2.nindices ∧
    hasAuxLeafL (collectKids ex8tree.childrenL ⟨[], 0, false⟩).1 = false ∧
    (createNlhdlrExprData ex8tree).usingaux = hasAuxLeaf ex8tree ∧
    (createNlhdlrExprData ex8tree).curvRecorded = none := by
  refine ⟨?_, ?_, ?_, ?_, ?_, ?_, ?_⟩
  · exact claim8_collect_leafs.1 ex8inner .convex _ (by decide)
  · exact claim8_collect_leafs.2.1 ex5x .convex _ (by decide) (by decide)
  · exact (((claim8_collect_leafs.2.2.2.1 (.auxKey 41) ⟨[(.varKey 31, 0)], 1, false⟩).1)
      (by decide)).1
  · exact claim8_collect_leafs.2.2.2.2.1 ex8tree.childrenL ⟨[], 0, false⟩ (by decide)
  · exact claim8_collect_leafs.2.2.2.2.2.1 ex8tree.childrenL ⟨[], 0, false⟩
  · exact (claim8_collect_leafs.2.2.2.2.2.2 ex8tree).1
  · rfl

/-- Auxiliary for C9: list version of the child-count invariant. -/
theorem childCountOkL_iff : ∀ es : List NlExpr,
    childCountOkL es = true ↔ ∀ e ∈ es, childCountOkB e = true := by
  intro es
  induction es with
  | nil => simp [childCountOkL]
  | cons e rest ih =>
    rw [childCountOkL, Bool.and_eq_true, ih]
    constructor
    · rintro ⟨h1, h2⟩ e2 hm
      rcases List.mem_cons.mp hm with rfl | hm2
      · exact h1
      · exact h2 e2 hm2
    · intro h
      exact ⟨h e (List.mem_cons_self _ _), fun e2 hm => h e2 (List.mem_cons_of_mem _ hm)⟩

/-- Auxiliary for C9: a node is invariant-respecting when its child count
matches the original (or it is childless) and all children respect it. -/
theorem childCountOkB_node (o : OExpr) (c : ExprCurv) (cs : List NlExpr)
    (hlen : cs = [] ∨ cs.length = o.children.length)
    (hall : ∀ e ∈ cs, childCountOkB e = true) :
    childCountOkB (.copyOf o c cs) = true := by
  rw [childCountOkB, Bool.and_eq_true, Bool.or_eq_true]
  refine ⟨?_, (childCountOkL_iff cs).mpr hall⟩
  rcases hlen with h | h
  · subst h; left; rfl
  · right; simpa using h

/-- Auxiliary for C9: nlhdlrExprGrowChildren creates exactly one child per
original child. -/
theorem growPairs_len (o : OExpr) (kidcurvs : List ExprCurv) :
    (growPairs o kidcurvs).length = o.children.length := by
  rw [growPairs, List.length_zipWith, List.length_range, Nat.min_self]

/-- Auxiliary for C9: shape facts of a successful product-composition. -/
theorem curvCheckPC_planOk (ctx : NlCtx) (b : Bool) (o : OExpr) (curv : ExprCurv)
    (g : GrowPlan) (hs : curvCheckProductComposite ctx b o curv = some g) :
    GrowPlanOk o g := by
  obtain ⟨_, _, h3, fh, hfh, _, _, hcurv, _, hg⟩ := curvCheckPC_inv ctx b o curv g hs
  subst hg
  have hsh : fhAt o 0 = some fh ∨ (fhAt o 0 = none ∧ fhAt o 1 = some fh) :=
    findFH_cases o fh hfh
  have hneed : fh.f.children = [fh.ch] ∧
      (fh.unwrapped = true → fh.ch.children.length = 1) := by
    rcases hsh with h | h
    · have hs0 := fhAt_shape o 0 fh h
      exact ⟨hs0.2.2.1, fun hu => (hs0.2.2.2.2.1 hu).2.1⟩
    · have hs1 := fhAt_shape o 1 fh h.2
      exact ⟨hs1.2.2.1, fun hu => (hs1.2.2.2.2.1 hu).2.1⟩
  refine ⟨h3, by rw [hneed.1]; rfl, ?_⟩
  intro ch hch
  cases hu : fh.unwrapped with
  | false => rw [hu] at hch; cases hch
  | true =>
    rw [hu] at hch
    simp only [if_true] at hch
    cases hch
    exact hneed.2 hu

/-- Auxiliary for C9: shape facts of a successful signomial check. -/
theorem curvCheckSig_planOk (ctx : NlCtx) (b : Bool) (o : OExpr) (curv : ExprCurv)
    (g : GrowPlan) (hs : curvCheckSignomial ctx b o curv = some g) :
    GrowPlanOk o g := by
  rw [curvCheckSignomial] at hs
  by_cases h1 : ¬ctx.dat.cvxsignomial = true
  · rw [if_pos h1] at hs; cases hs
  rw [if_neg h1] at hs
  by_cases h2 : o.hd ≠ .eprod
  · rw [if_pos h2] at hs; cases hs
  rw [if_neg h2] at hs
  dsimp only at hs
  by_cases h3 : o.children.length ≤ 1
  · rw [if_pos h3] at hs; cases hs
  rw [if_neg h3] at hs
  split at hs
  · cases hs
  · cases hs
    rw [GrowPlanOk, List.length_zipWith, List.length_map, List.length_range, Nat.min_self]

/-- Auxiliary for C9: shape facts of a successful quadratic check. -/
theorem curvCheckQuad_planOk (ctx : NlCtx) (b : Bool) (o : OExpr) (curv : ExprCurv)
    (g : GrowPlan) (hs : curvCheckQuadratic ctx b o curv = some g) :
    GrowPlanOk o g := by
  rw [curvCheckQuadratic] at hs
  by_cases h1 : ¬ctx.dat.cvxquadratic = true
  · rw [if_pos h1] at hs; cases hs
  rw [if_neg h1] at hs
  by_cases h2 : o.hd ≠ .esum
  · rw [if_pos h2] at hs; cases hs
  rw [if_neg h2] at hs
  by_cases h3 : curv = .linear
  · rw [if_pos h3] at hs; cases hs
  rw [if_neg h3] at hs
  split at hs
  · cases hs
  · split at hs
    · cases hs
    split at hs
    · cases hs
    split at hs
    · cases hs
    cases hs
    rw [GrowPlanOk, List.length_map]

/-- Auxiliary for C9: shape facts of a successful exprhdlr check. -/
theorem curvCheckEH_planOk (ctx : NlCtx) (b : Bool) (o : OExpr) (curv : ExprCurv)
    (g : GrowPlan) (hs : curvCheckExprhdlr ctx b o curv = some g) :
    GrowPlanOk o g := by
  rw [curvCheckExprhdlr] at hs
  dsimp only at hs
  by_cases h0 : o.children.length = 0
  · rw [if_pos h0] at hs
    split at hs
    · cases hs; trivial
    · cases hs
  rw [if_neg h0] at hs
  split at hs
  · cases hs
  split at hs
  · cases hs
  · cases hs
    rw [GrowPlanOk, List.length_zipWith]
    split
    · simp
    · simp

/-- Auxiliary for C9: every successful dispatch yields a shape-respecting
plan. -/
theorem tryCurvChecks_planOk (ctx : NlCtx) (b : Bool) (o : OExpr) (curv : ExprCurv)
    (i : Nat) (g : GrowPlan) (h : tryCurvChecks ctx b o curv = some (i, g)) :
    GrowPlanOk o g := by
  obtain ⟨⟨r, hget, hr⟩, _⟩ := tryList_first_success CURVCHECKS ctx b o curv i g h
  have hi : i < 4 := by
    by_contra hge
    rw [List.getElem?_eq_none (by simpa [CURVCHECKS] using Nat.le_of_not_lt hge)] at hget
    cases hget
  interval_cases i
  · simp only [CURVCHECKS, List.getElem?_cons_zero, Option.some.injEq] at hget
    rw [← hget] at hr
    exact curvCheckPC_planOk ctx b o curv g hr
  · simp only [CURVCHECKS, List.getElem?_cons_succ, List.getElem?_cons_zero,
      Option.some.injEq] at hget
    rw [← hget] at hr
    exact curvCheckSig_planOk ctx b o curv g hr
  · simp only [CURVCHECKS, List.getElem?_cons_succ, List.getElem?_cons_zero,
      Option.some.injEq] at hget
    rw [← hget] at hr
    exact curvCheckQuad_planOk ctx b o curv g hr
  · simp only [CURVCHECKS, List.getElem?_cons_succ, List.getElem?_cons_zero,
      Option.some.injEq] at hget
    rw [← hget] at hr
    exact curvCheckEH_planOk ctx b o curv g hr

/-- Auxiliary for C9: the construction loop produces only nodes whose child
count is zero or equal to the original's. -/
theorem constructNode_ccOk :
    ∀ (fuel : Nat) (ctx : NlCtx) (b : Bool) (o : OExpr) (c : ExprCurv),
      childCountOkB (constructNode fuel ctx b o c) = true := by
  intro fuel
  induction fuel with
  | zero =>
    intro ctx b o c
    rw [constructNode]
    exact childCountOkB_node o c [] (Or.inl rfl) (by intro e he; cases he)
  | succ fuel ih =>
    intro ctx b o c
    rw [constructNode]
    by_cases h1 : ctx.dat.isnlhdlrconvex = true ∧ ¬ctx.hasBwdiff o.hd = true
    · rw [if_pos h1]
      exact childCountOkB_node o c [] (Or.inl rfl) (by intro e he; cases he)
    rw [if_neg h1]
    by_cases h2 : ¬ctx.dat.isnlhdlrconvex = true ∧ exprIsMultivarLinear o = true
    · rw [if_pos h2]
      exact childCountOkB_node o c [] (Or.inl rfl) (by intro e he; cases he)
    rw [if_neg h2]
    by_cases h3 : c ≠ .unknown
    swap
    · rw [if_neg h3]
      refine childCountOkB_node o c _ (Or.inr (List.length_map _ _)) ?_
      intro e he
      obtain ⟨k, _, hk⟩ := List.mem_map.mp he
      rw [← hk]
      exact ih ctx false k .unknown
    rw [if_pos h3]
    cases htry : tryCurvChecks ctx b o c with
    | none =>
      exact childCountOkB_node o c [] (Or.inl rfl) (by intro e he; cases he)
    | some ig =>
      have hplan := tryCurvChecks_planOk ctx b o c ig.1 ig.2 (by rw [htry])
      obtain ⟨i, g⟩ := ig
      cases g with
      | leafDone =>
        exact childCountOkB_node o c [] (Or.inl rfl) (by intro e he; cases he)
      | items l =>
        rw [GrowPlanOk] at hplan
        refine childCountOkB_node o c _ (Or.inr (by rw [List.length_map]; exact hplan)) ?_
        intro e he
        obtain ⟨it, _, hit⟩ := List.mem_map.mp he
        rw [← hit]
        cases it with
        | expand ko kc => exact ih ctx false ko kc
        | consumed ko kc kidcurvs =>
          refine childCountOkB_node ko kc _
            (Or.inr (by rw [List.length_map, growPairs_len])) ?_
          intro e2 he2
          obtain ⟨p, _, hp⟩ := List.mem_map.mp he2
          rw [← hp]
          exact ih ctx false p.1 p.2
      | pcomp fidx f chOpt h hcurv =>
        rw [GrowPlanOk] at hplan
        have hh : childCountOkB (constructNode fuel ctx false h hcurv) = true :=
          ih ctx false h hcurv
        cases chOpt with
        | none =>
          dsimp only
          have hf2 : childCountOkB (NlExpr.copyOf f .unknown
              [constructNode fuel ctx false h hcurv]) = true := by
            refine childCountOkB_node f .unknown _ (Or.inr (by rw [hplan.2.1]; rfl)) ?_
            intro e he
            rcases List.mem_singleton.mp he with rfl
            exact hh
          split
          · refine childCountOkB_node o c _ (Or.inr (by rw [hplan.1]; rfl)) ?_
            intro e he
            rcases List.mem_cons.mp he with rfl | he2
            · exact hf2
            · rcases List.mem_singleton.mp he2 with rfl
              exact hh
          · refine childCountOkB_node o c _ (Or.inr (by rw [hplan.1]; rfl)) ?_
            intro e he
            rcases List.mem_cons.mp he with rfl | he2
            · exact hh
            · rcases List.mem_singleton.mp he2 with rfl
              exact hf2
        | some ch =>
          dsimp only
          have hinner : childCountOkB (NlExpr.copyOf ch .unknown
              [constructNode fuel ctx false h hcurv]) = true := by
            refine childCountOkB_node ch .unknown _
              (Or.inr (by rw [hplan.2.2 ch rfl]; rfl)) ?_
            intro e he
            rcases List.mem_singleton.mp he with rfl
            exact hh
          have hf2 : childCountOkB (NlExpr.copyOf f .unknown
              [NlExpr.copyOf ch .unknown [constructNode fuel ctx false h hcurv]]) = true := by
            refine childCountOkB_node f .unknown _ (Or.inr (by rw [hplan.2.1]; rfl)) ?_
            intro e he
            rcases List.mem_singleton.mp he with rfl
            exact hinner
          split
          · refine childCountOkB_node o c _ (Or.inr (by rw [hplan.1]; rfl)) ?_
            intro e he
            rcases List.mem_cons.mp he with rfl | he2
            · exact hf2
            · rcases List.mem_singleton.mp he2 with rfl
              exact hh
          · refine childCountOkB_node o c _ (Or.inr (by rw [hplan.1]; rfl)) ?_
            intro e he
            rcases List.mem_cons.mp he with rfl | he2
            · exact hh
            · rcases List.mem_singleton.mp he2 with rfl
              exact hf2

/-- Auxiliary for C9: stripping multivariate-linear children preserves the
child-count invariant (stripped nodes become childless). -/
theorem removeMultivarLinearL_ccOk : ∀ (n : Nat) (cs : List NlExpr),
    sizeOf cs ≤ n → childCountOkL cs = true →
    childCountOkL (removeMultivarLinearL cs) = true ∧
    (removeMultivarLinearL cs).length = cs.length := by
  intro n
  induction n with
  | zero =>
    intro cs h _
    cases cs with
    | nil => exact ⟨rfl, rfl⟩
    | cons ch rest => simp at h
  | succ n ih =>
    intro cs hsz hok
    cases cs with
    | nil => exact ⟨rfl, rfl⟩
    | cons ch rest =>
      rw [childCountOkL, Bool.and_eq_true] at hok
      have hrest : sizeOf rest ≤ n := by simp at hsz; omega
      obtain ⟨hr1, hr2⟩ := ih rest hrest hok.2
      rw [removeMultivarLinearL]
      refine ⟨?_, by rw [List.length_cons, List.length_cons, hr2]⟩
      rw [childCountOkL, Bool.and_eq_true]
      refine ⟨?_, hr1⟩
      by_cases hmv : exprIsMultivarLinearC ch = true
      · rw [if_pos hmv]
        cases ch with
        | auxRef o => rfl
        | copyOf o c cs2 =>
          rw [dropChildren]
          exact childCountOkB_node o c [] (Or.inl rfl) (by intro e he; cases he)
      · rw [if_neg hmv]
        cases ch with
        | auxRef o => rfl
        | copyOf o c cs2 =>
          rw [removeMultivarLinear]
          have hcs2 : sizeOf cs2 ≤ n := by simp at hsz ⊢; omega
          rw [childCountOkB, Bool.and_eq_true] at hok ⊢
          obtain ⟨h21, h22⟩ := ih cs2 hcs2 (hok.1).2
          refine ⟨?_, h21⟩
          rcases Bool.or_eq_true _ _ |>.mp (hok.1).1 with he | he
          · rw [List.isEmpty_iff.mp he]
            rfl
          · rw [Bool.or_eq_true]
            right
            rw [h22]
            exact he

/-- Auxiliary for C9: the leaf collector preserves the child-count
invariant (replaced children are childless aux references). -/
theorem collectKids_ccOk : ∀ (n : Nat) (cs : List NlExpr) (st : CLState),
    sizeOf cs ≤ n → childCountOkL cs = true →
    childCountOkL (collectKids cs st).1 = true := by
  intro n
  induction n with
  | zero =>
    intro cs st h _
    cases cs with
    | nil => rw [collectKids]; rfl
    | cons ch rest => simp at h
  | succ n ih =>
    intro cs st hsz hok
    cases cs with
    | nil => rw [collectKids]; rfl
    | cons ch rest =>
      rw [childCountOkL, Bool.and_eq_true] at hok
      have hrest : sizeOf rest ≤ n := by simp at hsz; omega
      rw [collectKids]
      dsimp only
      rw [childCountOkL, Bool.and_eq_true]
      constructor
      · by_cases hch : ch.childCount = 0
        · rw [if_pos hch]
          cases ch with
          | auxRef o => rw [handleLeaf]; rfl
          | copyOf o c cs2 =>
            cases cs2 with
            | cons k ks => simp [NlExpr.childCount, NlExpr.childrenL] at hch
            | nil =>
              rw [handleLeaf]
              by_cases ho : o.children.length > 0
              · rw [if_pos ho]; rfl
              · rw [if_neg ho]
                by_cases hv : isVarO o = true
                · rw [if_pos hv]
                  exact childCountOkB_node o c [] (Or.inl rfl) (by intro e he; cases he)
                · rw [if_neg hv]
                  exact childCountOkB_node o c [] (Or.inl rfl) (by intro e he; cases he)
        · rw [if_neg hch]
          cases ch with
          | auxRef o => simp [NlExpr.childCount, NlExpr.childrenL] at hch
          | copyOf o c cs2 =>
            cases cs2 with
            | nil => simp [NlExpr.childCount, NlExpr.childrenL] at hch
            | cons k ks =>
              rw [collectNode]
              dsimp only
              have hks : sizeOf (k :: ks) ≤ n := by simp at hsz ⊢; omega
              rw [childCountOkB, Bool.and_eq_true] at hok ⊢
              refine ⟨?_, ih (k :: ks) st hks (hok.1).2⟩
              rw [Bool.or_eq_true]
              right
              rw [collectKids_len (k :: ks) st]
              rcases Bool.or_eq_true _ _ |>.mp (hok.1).1 with he | he
              · simp at he
              · exact he
      · exact ih rest _ hrest hok.2

/-- Node-level corollary: the multivariate-linear postprocessing of the
concave handler preserves the child-count invariant. -/
theorem removeMultivarLinear_ccOk (t : NlExpr) (ht : childCountOkB t = true) :
    childCountOkB (removeMultivarLinear t) = true := by
  cases t with
  | auxRef o => rfl
  | copyOf o c cs =>
    rw [removeMultivarLinear]
    rw [childCountOkB, Bool.and_eq_true] at ht ⊢
    obtain ⟨h1, h2⟩ := removeMultivarLinearL_ccOk (sizeOf cs) cs le_rfl ht.2
    refine ⟨?_, h1⟩
    rw [Bool.or_eq_true]
    rcases Bool.or_eq_true _ _ |>.mp ht.1 with he | he
    · rw [List.isEmpty_iff.mp he]
      left
      rfl
    · right
      rw [h2]
      exact he

/-- Node-level corollary: collectLeafs preserves the child-count
invariant. -/
theorem collectLeafs_ccOk (t : NlExpr) (st : CLState)
    (ht : childCountOkB t = true) :
    childCountOkB (collectLeafs t st).1 = true := by
  cases t with
  | auxRef o => rfl
  | copyOf o c cs =>
    rw [collectLeafs, collectNode]
    dsimp only
    rw [childCountOkB, Bool.and_eq_true] at ht ⊢
    refine ⟨?_, collectKids_ccOk (sizeOf cs) cs st le_rfl ht.2⟩
    rw [Bool.or_eq_true]
    rcases Bool.or_eq_true _ _ |>.mp ht.1 with he | he
    · left
      rw [List.isEmpty_iff.mp he]
      rfl
    · right
      rw [collectKids_len cs st]
      exact he

/-- C9: throughout construction and leaf collection, every node of the
constructed copy that has at least one child has exactly as many children
as the original node it maps to under the origin map: every constructNode
result satisfies the invariant childCountOkB; growing children
(nlhdlrExprGrowChildren, embedded as growPairs) creates one child per
original child; the leaf collector's child replacement keeps the list
length, and both the multivariate-linear postprocessing and collectLeafs
preserve the invariant; hence every copy returned by constructExpr
satisfies it. -/
theorem claim9_child_counts :
    (∀ (fuel : Nat) (ctx : NlCtx) (b : Bool) (o : OExpr) (c : ExprCurv),
      childCountOkB (constructNode fuel ctx b o c) = true) ∧
    (∀ (o : OExpr) (kidcurvs : List ExprCurv),
      (growPairs o kidcurvs).length = o.children.length) ∧
    (∀ (cs : List NlExpr) (st : CLState),
      (collectKids cs st).1.length = cs.length) ∧
    (∀ t : NlExpr, childCountOkB t = true →
      childCountOkB (removeMultivarLinear t) = true) ∧
    (∀ (t : NlExpr) (st : CLState), childCountOkB t = true →
      childCountOkB (collectLeafs t st).1 = true) ∧
    (∀ (fuel : Nat) (ctx : NlCtx) (o : OExpr) (c : ExprCurv) (t : NlExpr),
      (constructExpr fuel ctx o c).1 = some t → childCountOkB t = true) := by
  refine ⟨constructNode_ccOk, growPairs_len, collectKids_len,
    removeMultivarLinear_ccOk, collectLeafs_ccOk, ?_⟩
  intro fuel ctx o c t hsome
  rw [constructExpr] at hsome
  dsimp only at hsome
  split at hsome
  · split at hsome
    · cases hsome
    · injection hsome with h
      subst h
      exact constructNode_ccOk fuel ctx true o c
  · split at hsome
    · cases hsome
    · injection hsome with h
      subst h
      exact removeMultivarLinear_ccOk _ (constructNode_ccOk fuel ctx true o c)

/-- Witness for C9: the invariant holds on the concrete quadratic example
copy, the concrete collected copy, and a concrete successful
constructExpr run. -/
theorem claim9_child_counts_witness :
    childCountOkB (constructNode 5 ctxConvexDefault true ex3sum .convex) = true ∧
    (growPairs ex3sq [.linear, .linear]).length = ex3sq.children.length ∧
    (collectKids ex8tree.childrenL ⟨[], 0, false⟩).1.length
      = ex8tree.childrenL.length ∧
    childCountOkB (removeMultivarLinear ex8tree) = true ∧
    childCountOkB (collectLeafs ex8tree ⟨[], 0, false⟩).1 = true ∧
    (constructExpr 5 ctxConvexDefault ex3sum .convex).1.map childCountOkB
      = some true := by
  refine ⟨claim9_child_counts.1 5 ctxConvexDefault true ex3sum .convex,
    claim9_child_counts.2.1 ex3sq [.linear, .linear],
    claim9_child_counts.2.2.1 ex8tree.childrenL ⟨[], 0, false⟩,
    claim9_child_counts.2.2.2.1 ex8tree (by rfl),
    claim9_child_counts.2.2.2.2.1 ex8tree ⟨[], 0, false⟩ (by rfl),
    ?_⟩
  cases hx : (constructExpr 5 ctxConvexDefault ex3sum .convex).1 with
  | none =>
    have hs : (constructExpr 5 ctxConvexDefault ex3sum .convex).1.isSome = true := by
      rfl
    rw [hx] at hs
    cases hs
  | some t =>
    rw [show Option.map childCountOkB (some t) = some (childCountOkB t) from rfl]
    rw [claim9_child_counts.2.2.2.2.2 5 ctxConvexDefault ex3sum .convex t hx]
